import Mathlib

/-!
# bitmask: a shallow embedding of `bitmask.go`

The Go package packs the truthiness of tagged struct fields into an `int`
(`Marshal`) and writes a mask back into a struct through a pointer
(`Unmarshal`).  The embedding below follows `bitmask.go` function by function:

* `BitMask` is Go's `int` on a 64-bit target, kept as its two's-complement bit
  pattern (a natural number below `2 ^ 64`); `BitMask.toInt` is the signed value.
* A run-time panic (negative shift count, `reflect` refusing a write) is an
  explicit outcome, `Run.panicked`.
* `reflect` is embedded by a small value model: `Value` is what
  `reflect.ValueOf(dest)` can see, `Field` is one struct field with the text
  returned by `field.Tag.Get("bitmask")`, and `FieldValue` is the field's
  content, from which `Kind()` is computed.
* `strconv.ParseInt(s, 10, 64)` is embedded from the Go standard library.
-/

namespace Bitmask

/-! ## Outcomes and errors -/

/-- Outcome of running a piece of Go code: it completes with a result, or the
goroutine panics. -/
inductive Run (α : Type) where
  | done (a : α)
  | panicked (msg : String)
  deriving DecidableEq, Repr

/-- Sequencing of two computations; a panic in the first one propagates. -/
def Run.bind {α β : Type} (r : Run α) (k : α → Run β) : Run β :=
  match r with
  | .done a => k a
  | .panicked msg => .panicked msg

/-- The package-level error variables of `bitmask.go` (lines 10-21). -/
inductive Sentinel where
  | ErrInvalidTagValue
  | ErrNoNilPointerAllowed
  | ErrNotAStructPointer
  | ErrNotStructPointerOrStruct
  | ErrBitOutOfRange
  deriving DecidableEq, Repr

/-- The text given to `errors.New` for each error variable. -/
def Sentinel.text : Sentinel → String
  | .ErrInvalidTagValue => "invalid tag value"
  | .ErrNoNilPointerAllowed => "no nil pointer allowed"
  | .ErrNotAStructPointer => "dest must be a pointer to struct"
  | .ErrNotStructPointerOrStruct => "dest must be a pointer to struct or a struct"
  | .ErrBitOutOfRange => "bit should within 1 to 64"

/-- An error value returned by the package: an error variable itself, or
`fmt.Errorf("%w: %s", sentinel, tagValue)`, which wraps the variable and carries
the raw tag text. -/
inductive Error where
  | plain (s : Sentinel)
  | wrapped (s : Sentinel) (tagValue : String)
  deriving DecidableEq, Repr

/-- The error variable an error is, in the sense of `errors.Is`. -/
def Error.sentinel : Error → Sentinel
  | .plain s => s
  | .wrapped s _ => s

/-- Result of `errors.Is(e, s)`. -/
def Error.Is (e : Error) (s : Sentinel) : Bool := decide (e.sentinel = s)

/-- Result of `e.Error()`. -/
def Error.message : Error → String
  | .plain s => s.text
  | .wrapped s tagValue => s.text ++ ": " ++ tagValue

/-- The raw tag text carried by an error built with `fmt.Errorf`. -/
def Error.tagText : Error → Option String
  | .plain _ => none
  | .wrapped _ tagValue => some tagValue

/-! ## The bit primitive (`bitmask.go`, lines 28-50) -/

/-- Go's `type BitMask int` on a 64-bit target: the two's-complement bit pattern
of the integer. -/
structure BitMask where
  bits : Nat
  isWord : bits < 2 ^ 64
  deriving DecidableEq, Repr

/-- The zero value `var bitmask BitMask`. -/
def BitMask.zero : BitMask := ⟨0, by decide⟩

/-- The signed integer a mask denotes, `int(b)`. -/
def BitMask.toInt (b : BitMask) : Int :=
  if b.bits < 2 ^ 63 then (b.bits : Int) else (b.bits : Int) - 2 ^ 64

/-- Wrap-around of a mathematical integer into the range of a 64-bit `int`. -/
def wrapInt (z : Int) : Int := (z + 2 ^ 63) % 2 ^ 64 - 2 ^ 63

/-- Go: `func New(val int) BitMask`.  The conversion keeps the bit pattern. -/
def New (val : Int) : BitMask :=
  ⟨(val % 2 ^ 64).toNat, by
    have h1 : (0 : Int) ≤ val % 2 ^ 64 := Int.emod_nonneg _ (by norm_num)
    have h2 : val % 2 ^ 64 < 2 ^ 64 := Int.emod_lt_of_pos _ (by norm_num)
    omega⟩

/-- The Go expression `1 << (i - 1)` at type `BitMask`, as a bit pattern.
`i - 1` wraps like any `int` subtraction; a negative shift count panics at run
time (`none`); a count of 64 or more shifts the bit out and gives 0. -/
def shiftOne (i : Int) : Option Nat :=
  let s := wrapInt (i - 1)
  if s < 0 then none
  else if 64 ≤ s then some 0
  else some (1 <<< s.toNat)

/-- Go: `func (b BitMask) IsSet(i int) bool { return b&(1<<(i-1)) != 0 }`. -/
def BitMask.IsSet (b : BitMask) (i : Int) : Run Bool :=
  match shiftOne i with
  | none => .panicked "runtime error: negative shift amount"
  | some k => .done (b.bits &&& k != 0)

/-- Go: `func (b *BitMask) Set(i int) { *b |= (1 << (i - 1)) }`; the result is the
new value of `*b`, kept to the 64 bits of the word. -/
def BitMask.Set (b : BitMask) (i : Int) : Run BitMask :=
  match shiftOne i with
  | none => .panicked "runtime error: negative shift amount"
  | some k => .done ⟨(b.bits ||| k) % 2 ^ 64, Nat.mod_lt _ (by decide)⟩

/-- Go: `func (b *BitMask) Unset(i int) { *b &^= (1 << (i - 1)) }`; the result is
the new value of `*b`.  `x &^ y` is `x AND (NOT y)` on the 64-bit word. -/
def BitMask.Unset (b : BitMask) (i : Int) : Run BitMask :=
  match shiftOne i with
  | none => .panicked "runtime error: negative shift amount"
  | some k => .done ⟨b.bits &&& (2 ^ 64 - 1 - k),
      Nat.lt_of_le_of_lt Nat.and_le_left b.isWord⟩

/-! ## `strconv.ParseInt(s, 10, 64)` (Go standard library) -/

/-- The two causes of a `*strconv.NumError`. -/
inductive NumError where
  | ErrSyntax
  | ErrRange
  deriving DecidableEq, Repr

/-- Largest `uint64`. -/
def maxUint64 : Nat := 2 ^ 64 - 1

/-- The digit loop of `strconv.ParseUint` for base 10 and bit size 64, with `n` the
value accumulated so far.  Go walks the bytes of the string; a byte is accepted
exactly when it is an ASCII digit, and every byte of a non-ASCII character is
rejected, so walking characters gives the same result.  As in Go the loop
returns `maxUint64` with a range error as soon as the value overflows. -/
def parseUintLoop : List Char → Nat → Nat × Option NumError
  | [], n => (n, none)
  | c :: rest, n =>
    if '0' ≤ c ∧ c ≤ '9' then
      let d := c.toNat - '0'.toNat
      if maxUint64 / 10 + 1 ≤ n then (maxUint64, some .ErrRange)
      else
        let n1 := n * 10 + d
        if maxUint64 < n1 then (maxUint64, some .ErrRange)
        else parseUintLoop rest n1
    else (0, some .ErrSyntax)

/-- Go: `strconv.ParseUint(s, 10, 64)`. -/
def ParseUint (s : List Char) : Nat × Option NumError :=
  match s with
  | [] => (0, some .ErrSyntax)
  | _ => parseUintLoop s 0

/-- Go: `strconv.ParseInt(s, 10, 64)`: an optional sign, then `ParseUint`, then
the check against the signed range.  Like the Go function it returns a value
and an error; the error is `none` for Go's `nil`. -/
def ParseInt (s : String) : Int × Option NumError :=
  match s.toList with
  | [] => (0, some .ErrSyntax)
  | c :: cs =>
    let neg : Bool := c = '-'
    let rest := if c = '+' ∨ c = '-' then cs else c :: cs
    match ParseUint rest with
    | (_, some .ErrSyntax) => (0, some .ErrSyntax)
    | (un, _) =>
      if !neg && 2 ^ 63 ≤ un then (2 ^ 63 - 1, some .ErrRange)
      else if neg && 2 ^ 63 < un then (-2 ^ 63, some .ErrRange)
      else (if neg then -(un : Int) else (un : Int), none)

/-! ## The `reflect` view of Go values -/

/-- Go: `reflect.Kind`, all of its constants in declaration order. -/
inductive Kind where
  | Invalid | Bool
  | Int | Int8 | Int16 | Int32 | Int64
  | Uint | Uint8 | Uint16 | Uint32 | Uint64 | Uintptr
  | Float32 | Float64 | Complex64 | Complex128
  | Array | Chan | Func | Interface | Map | Pointer | Slice | String | Struct
  | UnsafePointer
  deriving DecidableEq, Repr

/-- The kinds whose values `reflect.Value.Int` reads. -/
inductive IntKind where
  | Int | Int8 | Int16 | Int32 | Int64
  deriving DecidableEq, Repr

/-- The kinds whose values `reflect.Value.Uint` reads; `uintptr` is one of them. -/
inductive UintKind where
  | Uint | Uint8 | Uint16 | Uint32 | Uint64 | Uintptr
  deriving DecidableEq, Repr

/-- The kinds a struct field can have besides `bool` and the integer kinds. -/
inductive OtherKind where
  | Float32 | Float64 | Complex64 | Complex128
  | Array | Chan | Func | Interface | Map | Pointer | Slice | String | Struct
  | UnsafePointer
  deriving DecidableEq, Repr

/-- The `reflect.Kind` of a signed integer kind. -/
def IntKind.toKind : IntKind → Kind
  | .Int => .Int | .Int8 => .Int8 | .Int16 => .Int16 | .Int32 => .Int32 | .Int64 => .Int64

/-- The `reflect.Kind` of an unsigned integer kind. -/
def UintKind.toKind : UintKind → Kind
  | .Uint => .Uint | .Uint8 => .Uint8 | .Uint16 => .Uint16 | .Uint32 => .Uint32
  | .Uint64 => .Uint64 | .Uintptr => .Uintptr

/-- The `reflect.Kind` of any other field kind. -/
def OtherKind.toKind : OtherKind → Kind
  | .Float32 => .Float32 | .Float64 => .Float64 | .Complex64 => .Complex64
  | .Complex128 => .Complex128 | .Array => .Array | .Chan => .Chan | .Func => .Func
  | .Interface => .Interface | .Map => .Map | .Pointer => .Pointer | .Slice => .Slice
  | .String => .String | .Struct => .Struct | .UnsafePointer => .UnsafePointer

/-- The content of one struct field, `v.Field(i)`.  A value of another kind is
kept as uninterpreted `data`: the package never looks inside it. -/
inductive FieldValue where
  | bool (b : Bool)
  | int (k : IntKind) (n : Int)
  | uint (k : UintKind) (n : Nat)
  | other (k : OtherKind) (data : String)
  deriving DecidableEq, Repr

/-- Go: `field.Type.Kind()`, which is also `v.Field(i).Kind()`. -/
def FieldValue.Kind : FieldValue → Kind
  | .bool _ => .Bool
  | .int k _ => k.toKind
  | .uint k _ => k.toKind
  | .other k _ => k.toKind

/-- Go: `reflect.Value.Bool`, which panics on a value that is not a `bool`. -/
def FieldValue.Bool : FieldValue → Run Bool
  | .bool b => .done b
  | _ => .panicked "reflect: call of reflect.Value.Bool on non-bool Value"

/-- Go: `reflect.Value.Int`, which panics on a value that is not a signed integer. -/
def FieldValue.Int : FieldValue → Run Int
  | .int _ n => .done n
  | _ => .panicked "reflect: call of reflect.Value.Int on non-int Value"

/-- Go: `reflect.Value.Uint`, which panics on a value that is not an unsigned
integer. -/
def FieldValue.Uint : FieldValue → Run Nat
  | .uint _ n => .done n
  | _ => .panicked "reflect: call of reflect.Value.Uint on non-uint Value"

/-- One field of a struct value: its `reflect.StructField` data and its content.
`tag` is the text returned by `field.Tag.Get(TagName)`, empty when the field has
no `bitmask` key.  `exported` is `field.IsExported()`: `reflect` lets a field
be read whatever it is, and be written only when it is exported. -/
structure Field where
  name : String
  exported : Bool
  tag : String
  value : FieldValue
  deriving DecidableEq, Repr

/-- Go: `reflect.Value.SetBool` on `v.Field(i)` of an addressable struct: the
assignability check comes first, then the kind check. -/
def Field.SetBool (f : Field) (x : Bool) : Run Field :=
  if f.exported = false then
    .panicked "reflect: reflect.Value.SetBool using value obtained using unexported field"
  else
    match f.value with
    | .bool _ => .done ⟨f.name, f.exported, f.tag, .bool x⟩
    | _ => .panicked "reflect: call of reflect.Value.SetBool on non-bool Value"

/-- Go: `reflect.Value.SetInt` on `v.Field(i)` of an addressable struct. -/
def Field.SetInt (f : Field) (x : Int) : Run Field :=
  if f.exported = false then
    .panicked "reflect: reflect.Value.SetInt using value obtained using unexported field"
  else
    match f.value with
    | .int k _ => .done ⟨f.name, f.exported, f.tag, .int k x⟩
    | _ => .panicked "reflect: call of reflect.Value.SetInt on non-int Value"

/-- Go: `reflect.Value.SetUint` on `v.Field(i)` of an addressable struct. -/
def Field.SetUint (f : Field) (x : Nat) : Run Field :=
  if f.exported = false then
    .panicked "reflect: reflect.Value.SetUint using value obtained using unexported field"
  else
    match f.value with
    | .uint k _ => .done ⟨f.name, f.exported, f.tag, .uint k x⟩
    | _ => .panicked "reflect: call of reflect.Value.SetUint on non-uint Value"

/-- The declaration of a struct field, without a value. -/
structure StructField where
  name : String
  exported : Bool
  tag : String
  kind : Kind
  deriving DecidableEq, Repr

/-- A Go type, as far as a nil pointer needs one: the type it points to. -/
inductive GoType where
  | basic (k : Kind)
  | pointer (elem : GoType)
  | struct (fields : List StructField)
  deriving Repr

/-- What `reflect.ValueOf(dest)` can see of a `dest any`.

* `invalid`: `dest == nil`, the untyped nil.
* `nilPtr t`: a nil pointer whose pointee type is `t`.
* `ptr elem`: a non-nil pointer, with the variable it points to.
* `iface dyn`: a variable of interface type holding `dyn` (`invalid` when the
  interface is nil); `reflect` meets it only behind a pointer.
* `struct fields`: a struct value, its fields in declaration order.
* `other k`: a non-nil value of a kind `k` that is none of the above (a map, a
  slice, a number, ...).

Writes through a pointer are returned as the new `Value`. -/
inductive Value where
  | invalid
  | nilPtr (pointee : GoType)
  | ptr (elem : Value)
  | iface (dyn : Value)
  | struct (fields : List Field)
  | other (k : Kind)
  deriving Repr

/-! ## `Marshal` (`bitmask.go`, lines 52-105) -/

/-- The `switch field.Type.Kind()` of `Marshal` (lines 88-101) for one field whose
tag parsed to `value`: the new value of the accumulating `bitmask`. -/
def marshalField (v : FieldValue) (bitmask : BitMask) (value : Int) : Run BitMask :=
  match v.Kind with
  | .Bool =>
    v.Bool.bind fun b => if b then bitmask.Set value else .done bitmask
  | .Int | .Int8 | .Int16 | .Int32 | .Int64 =>
    v.Int.bind fun n => if n ≠ 0 then bitmask.Set value else .done bitmask
  | .Uint | .Uint8 | .Uint16 | .Uint32 | .Uint64 =>
    v.Uint.bind fun n => if n ≠ 0 then bitmask.Set value else .done bitmask
  | _ => .done bitmask

/-- The field loop of `Marshal` (lines 73-104) over the fields still to visit,
with the accumulating `bitmask`.  Every `return` of the loop returns that
variable. -/
def marshalFields : List Field → BitMask → Run (BitMask × Option Error)
  | [], bitmask => .done (bitmask, none)
  | field :: rest, bitmask =>
    let tagValue := field.tag
    if tagValue = "" then marshalFields rest bitmask
    else
      match ParseInt tagValue with
      | (_, some _) => .done (bitmask, some (.wrapped .ErrInvalidTagValue tagValue))
      | (value, none) =>
        if value < 1 ∨ value > 64 then
          .done (bitmask, some (.wrapped .ErrBitOutOfRange tagValue))
        else
          match marshalField field.value bitmask value with
          | .panicked msg => .panicked msg
          | .done bitmask => marshalFields rest bitmask

/-- Go: `func Marshal(dest any) (BitMask, error)`.  A pointer is followed with
`Marshal(v.Elem().Interface())`, where `Interface()` of an interface-typed
variable yields what the interface holds. -/
def Marshal : Value → Run (BitMask × Option Error)
  | .invalid => .done (BitMask.zero, none)
  | .nilPtr _ => .done (BitMask.zero, none)
  | .ptr elem => Marshal elem
  | .iface dyn => Marshal dyn
  | .struct fields => marshalFields fields BitMask.zero
  | .other _ => .done (BitMask.zero, some (.plain .ErrNotStructPointerOrStruct))

/-! ## `Unmarshal` (`bitmask.go`, lines 107-156) -/

/-- What a call that writes through its argument leaves behind: the state of the
destination when the call ends, and how it ended (returned `nil`, returned an
error, or panicked). -/
structure Written (σ : Type) where
  dest : σ
  ret : Run (Option Error)
  deriving Repr

/-- The `switch f.Type.Kind()` of `Unmarshal` (lines 138-151) for one field whose
tag parsed to `value`: the field after the write, if any. -/
def unmarshalField (bitmask : BitMask) (f : Field) (value : Int) : Run Field :=
  match f.value.Kind with
  | .Bool =>
    (bitmask.IsSet value).bind fun set => if set then f.SetBool true else .done f
  | .Int | .Int8 | .Int16 | .Int32 | .Int64 =>
    (bitmask.IsSet value).bind fun set => if set then f.SetInt 1 else .done f
  | .Uint | .Uint8 | .Uint16 | .Uint32 | .Uint64 =>
    (bitmask.IsSet value).bind fun set => if set then f.SetUint 1 else .done f
  | _ => .done f

/-- The field loop of `Unmarshal` (lines 123-155) over the fields still to visit.
Fields are written as the loop meets them, so a later `return` of an error
leaves the earlier writes in place. -/
def unmarshalFields (bitmask : BitMask) : List Field → Written (List Field)
  | [] => ⟨[], .done none⟩
  | f :: rest =>
    let tagValue := f.tag
    if tagValue = "" then
      let r := unmarshalFields bitmask rest
      ⟨f :: r.dest, r.ret⟩
    else
      match ParseInt tagValue with
      | (_, some _) => ⟨f :: rest, .done (some (.wrapped .ErrInvalidTagValue tagValue))⟩
      | (value, none) =>
        if value < 1 ∨ value > 64 then
          ⟨f :: rest, .done (some (.wrapped .ErrBitOutOfRange tagValue))⟩
        else
          match unmarshalField bitmask f value with
          | .panicked msg => ⟨f :: rest, .panicked msg⟩
          | .done g =>
            let r := unmarshalFields bitmask rest
            ⟨g :: r.dest, r.ret⟩

/-- Go: `func Unmarshal(bitmask BitMask, dest any) error`.  When the pointee is
itself a pointer the function calls itself on it (line 116); that inner call
returns `ErrNotAStructPointer` when the inner pointer is nil. -/
def Unmarshal (bitmask : BitMask) : Value → Written Value
  | .ptr (.ptr elem) =>
    let r := Unmarshal bitmask (.ptr elem)
    ⟨.ptr r.dest, r.ret⟩
  | .ptr (.nilPtr t) =>
    let r := Unmarshal bitmask (.nilPtr t)
    ⟨.ptr r.dest, r.ret⟩
  | .ptr (.struct fields) =>
    let r := unmarshalFields bitmask fields
    ⟨.ptr (.struct r.dest), r.ret⟩
  | dest => ⟨dest, .done (some (.plain .ErrNotAStructPointer))⟩

/-! ## Vocabulary of the specification -/

/-- The position a tag denotes, the value `strconv.ParseInt` returns for it. -/
def tagPos (t : String) : Int := (ParseInt t).1

/-- A tag is a valid position: it parses without error, to a value in `[1, 64]`. -/
def validTag (t : String) : Prop :=
  (ParseInt t).2 = none ∧ 1 ≤ tagPos t ∧ tagPos t ≤ 64

instance (t : String) : Decidable (validTag t) := by
  unfold validTag; exact inferInstance

/-- Every non-empty tag of the struct is a valid position. -/
def wellTagged (fs : List Field) : Prop :=
  ∀ f ∈ fs, f.tag ≠ "" → validTag f.tag

/-- The kinds named by the `case` lists of both `switch` statements: `bool`,
`int`, `int8` .. `int64`, `uint`, `uint8` .. `uint64`. -/
def participatingKind : Kind → Bool
  | .Bool => true
  | .Int | .Int8 | .Int16 | .Int32 | .Int64 => true
  | .Uint | .Uint8 | .Uint16 | .Uint32 | .Uint64 => true
  | _ => false

/-- A field value counts as set: a `bool` that is `true`, or a value of kind
`int`, `int8` .. `int64`, `uint`, `uint8` .. `uint64` that is not zero. -/
def truthy : FieldValue → Bool
  | .bool b => b
  | .int _ n => decide (n ≠ 0)
  | .uint k n => decide (k ≠ .Uintptr) && decide (n ≠ 0)
  | .other _ _ => false

/-- The value `Unmarshal` writes for a set bit: `true` for a `bool`, `1` for the
signed and unsigned integer kinds; a value of another kind is not written. -/
def oneOf : FieldValue → FieldValue
  | .bool _ => .bool true
  | .int k _ => .int k 1
  | .uint k n => if k = .Uintptr then .uint k n else .uint k 1
  | .other k data => .other k data

/-- The zero value of the field's type; the uninterpreted data of another kind
is written as the empty text. -/
def zeroOf : FieldValue → FieldValue
  | .bool _ => .bool false
  | .int k _ => .int k 0
  | .uint k _ => .uint k 0
  | .other k _ => .other k ""

/-- The same field of a zero-valued struct of the same type. -/
def Field.fresh (f : Field) : Field := ⟨f.name, f.exported, f.tag, zeroOf f.value⟩

/-- The field with the value `Unmarshal` writes for a set bit. -/
def Field.written (f : Field) : Field := ⟨f.name, f.exported, f.tag, oneOf f.value⟩

/-- The field takes part in a call: it has a tag and its kind is in the `case`
lists. -/
def Field.participates (f : Field) : Bool :=
  decide (f.tag ≠ "") && participatingKind f.value.Kind

/-- What `Unmarshal` makes of one field when it can write: the field is written
when it takes part and the bit of its tag is set in the mask, and kept as it is
otherwise. -/
def applyMask (m : BitMask) (f : Field) : Field :=
  if f.participates = true ∧ m.IsSet (tagPos f.tag) = .done true then f.written else f

/-- The error both field loops return for a non-empty tag that is not a valid
position: `ErrInvalidTagValue` when the tag does not parse, `ErrBitOutOfRange` when
it parses to a value outside `[1, 64]`; either way the error carries the tag. -/
def isTagError (t : String) (e : Error) : Prop :=
  ((ParseInt t).2 ≠ none ∧ e = .wrapped .ErrInvalidTagValue t) ∨
    ((ParseInt t).2 = none ∧ (tagPos t < 1 ∨ tagPos t > 64) ∧ e = .wrapped .ErrBitOutOfRange t)

/-- A chain of `n` non-nil pointers ending at `v`. -/
def ptrChain : Nat → Value → Value
  | 0, v => v
  | n + 1, v => .ptr (ptrChain n v)

/-- The fields of the struct value that `Marshal` reaches from its argument by
following pointers, if it reaches one. -/
def reachedStruct : Value → Option (List Field)
  | .struct fields => some fields
  | .ptr elem => reachedStruct elem
  | .iface dyn => reachedStruct dyn
  | _ => none

/-- The destination is a chain of one or more non-nil pointers that ends at a struct
value. -/
def structPointerChain : Value → Bool
  | .ptr (.struct _) => true
  | .ptr (.ptr elem) => structPointerChain (.ptr elem)
  | _ => false

/-- The OR of `2^(p-1)` over the positions `p` tagged on the fields that take part, as
a bit pattern. -/
def positionsMask : List Field → Nat
  | [] => 0
  | f :: rest =>
    (if f.participates = true then 2 ^ (tagPos f.tag - 1).toNat else 0) ||| positionsMask rest

/-! ## Lemmas on the bit primitive -/

/-- Two masks with the same bit pattern are equal. -/
theorem BitMask.ext_bits {a b : BitMask} (h : a.bits = b.bits) : a = b := by
  cases a; cases b; simp_all

/-- The value of `1 << (i - 1)` fits the 64-bit word. -/
theorem shiftOne_lt {i : Int} {k : Nat} (h : shiftOne i = some k) : k < 2 ^ 64 := by
  unfold shiftOne at h
  simp only at h
  split at h
  · cases h
  · split at h
    · cases h; decide
    · cases h
      rw [Nat.one_shiftLeft]
      apply Nat.pow_lt_pow_right (by decide)
      omega

/-- An integer in the range of `int` is not changed by the wrap-around. -/
theorem wrapInt_of_small {z : Int} (h1 : -2 ^ 63 ≤ z) (h2 : z < 2 ^ 63) : wrapInt z = z := by
  unfold wrapInt
  omega

/-- For a position in `[1, 64]` the shift `1 << (i - 1)` is the single bit `i - 1`. -/
theorem shiftOne_of_pos {p : Int} (h1 : 1 ≤ p) (h2 : p ≤ 64) :
    shiftOne p = some (2 ^ (p - 1).toNat) := by
  have hw : wrapInt (p - 1) = p - 1 := wrapInt_of_small (by omega) (by omega)
  unfold shiftOne
  simp only [hw]
  rw [if_neg (by omega), if_neg (by omega), Nat.one_shiftLeft]

/-- The test `n & 2^k != 0` reads bit `k` of `n`. -/
theorem and_two_pow_ne_zero (n k : Nat) : (n &&& 2 ^ k != 0) = n.testBit k := by
  rw [Nat.and_two_pow]
  cases n.testBit k <;> simp

/-- For a position in `[1, 64]`, `IsSet` completes and reads bit `p - 1`. -/
theorem IsSet_of_pos (b : BitMask) {p : Int} (h1 : 1 ≤ p) (h2 : p ≤ 64) :
    b.IsSet p = .done (b.bits.testBit (p - 1).toNat) := by
  unfold BitMask.IsSet
  rw [shiftOne_of_pos h1 h2]
  simp only [and_two_pow_ne_zero]

/-- For a position in `[1, 64]`, `Set` completes and adds bit `p - 1`. -/
theorem Set_of_pos (b : BitMask) {p : Int} (h1 : 1 ≤ p) (h2 : p ≤ 64) :
    ∃ c, b.Set p = .done c ∧ c.bits = b.bits ||| 2 ^ (p - 1).toNat := by
  have hk : shiftOne p = some (2 ^ (p - 1).toNat) := shiftOne_of_pos h1 h2
  have hlt : b.bits ||| 2 ^ (p - 1).toNat < 2 ^ 64 := Nat.or_lt_two_pow b.isWord (shiftOne_lt hk)
  unfold BitMask.Set
  rw [hk]
  exact ⟨_, rfl, Nat.mod_eq_of_lt hlt⟩

/-- One step of the `Marshal` switch on a valid position. -/
theorem marshalField_of_pos (v : FieldValue) (b : BitMask) {p : Int} (h1 : 1 ≤ p)
    (h2 : p ≤ 64) :
    ∃ c, marshalField v b p = .done c ∧
      c.bits = if truthy v = true then b.bits ||| 2 ^ (p - 1).toNat else b.bits := by
  obtain ⟨c, hc, hbits⟩ := Set_of_pos b h1 h2
  cases v with
  | bool x =>
    cases x
    · exact ⟨b, by simp [marshalField, FieldValue.Kind, FieldValue.Bool, Run.bind],
        by rw [if_neg (by simp [truthy])]⟩
    · exact ⟨c, by simp [marshalField, FieldValue.Kind, FieldValue.Bool, Run.bind, hc],
        by rw [if_pos (by simp [truthy])]; exact hbits⟩
  | int k n =>
    by_cases hn : n = 0
    · refine ⟨b, ?_, by rw [if_neg (by simp [truthy, hn])]⟩
      cases k <;> simp [marshalField, FieldValue.Kind, IntKind.toKind, FieldValue.Int, Run.bind, hn]
    · refine ⟨c, ?_, by rw [if_pos (by simp [truthy, hn])]; exact hbits⟩
      cases k <;> simp [marshalField, FieldValue.Kind, IntKind.toKind, FieldValue.Int, Run.bind, hn, hc]
  | uint k n =>
    by_cases hk : k = .Uintptr
    · refine ⟨b, ?_, by rw [if_neg (by simp [truthy, hk])]⟩
      subst hk
      simp [marshalField, FieldValue.Kind, UintKind.toKind]
    · by_cases hn : n = 0
      · refine ⟨b, ?_, by rw [if_neg (by simp [truthy, hn])]⟩
        cases k <;> simp_all [marshalField, FieldValue.Kind, UintKind.toKind, FieldValue.Uint, Run.bind]
      · refine ⟨c, ?_, by rw [if_pos (by simp [truthy, hn, hk])]; exact hbits⟩
        cases k <;> simp_all [marshalField, FieldValue.Kind, UintKind.toKind, FieldValue.Uint, Run.bind]
  | other k data =>
    refine ⟨b, ?_, by rw [if_neg (by simp [truthy])]⟩
    cases k <;> simp [marshalField, FieldValue.Kind, OtherKind.toKind]

/-- Bit `j` of the complement of `k` within the 64-bit word. -/
theorem testBit_complement {k : Nat} (hk : k < 2 ^ 64) (j : Nat) :
    (2 ^ 64 - 1 - k).testBit j = (decide (j < 64) && !k.testBit j) := by
  have h : 2 ^ 64 - 1 - k = 2 ^ 64 - (k + 1) := by omega
  rw [h, Nat.testBit_two_pow_sub_succ hk]

/-- A bit of a 64-bit word at index 64 or more is clear. -/
theorem testBit_of_word {n : Nat} (hn : n < 2 ^ 64) {j : Nat} (hj : 64 ≤ j) :
    n.testBit j = false :=
  Nat.testBit_lt_two_pow (Nat.lt_of_lt_of_le hn (Nat.pow_le_pow_right (by decide) hj))

/-- For a position in `[1, 64]`, `Unset` completes and clears bit `p - 1` only. -/
theorem Unset_of_pos (b : BitMask) {p : Int} (h1 : 1 ≤ p) (h2 : p ≤ 64) :
    ∃ c, b.Unset p = .done c ∧ c.bits = b.bits &&& (2 ^ 64 - 1 - 2 ^ (p - 1).toNat) ∧
      ∀ j, c.bits.testBit j = (b.bits.testBit j && !decide ((p - 1).toNat = j)) := by
  have hk : shiftOne p = some (2 ^ (p - 1).toNat) := shiftOne_of_pos h1 h2
  unfold BitMask.Unset
  rw [hk]
  refine ⟨_, rfl, rfl, fun j => ?_⟩
  show (b.bits &&& (2 ^ 64 - 1 - 2 ^ (p - 1).toNat)).testBit j = _
  rw [Nat.testBit_and, testBit_complement (shiftOne_lt hk), Nat.testBit_two_pow]
  by_cases hj : j < 64
  · simp [hj]
  · rw [testBit_of_word b.isWord (by omega)]
    simp

/-- The shift `1 << (0 - 1)` has a negative count. -/
theorem shiftOne_zero : shiftOne 0 = none := by decide

/-- When `IsSet` completes, the shift is defined, and the result tells whether the
mask meets the shifted bit. -/
theorem IsSet_done {b : BitMask} {i : Int} {s : Bool} (h : b.IsSet i = .done s) :
    ∃ k, shiftOne i = some k ∧ k < 2 ^ 64 ∧ (b.bits &&& k != 0) = s := by
  unfold BitMask.IsSet at h
  cases hk : shiftOne i with
  | none => rw [hk] at h; cases h
  | some k =>
    rw [hk] at h
    simp only [Run.done.injEq] at h
    exact ⟨k, rfl, shiftOne_lt hk, h⟩

/-- Adding the bits of `k` to a word and then removing them gives the word back when
it had none of them. -/
theorem or_and_complement {n k : Nat} (hn : n < 2 ^ 64) (hk : k < 2 ^ 64)
    (h : n &&& k = 0) : (n ||| k) % 2 ^ 64 &&& (2 ^ 64 - 1 - k) = n := by
  rw [Nat.mod_eq_of_lt (Nat.or_lt_two_pow hn hk)]
  apply Nat.eq_of_testBit_eq
  intro j
  rw [Nat.testBit_and, Nat.testBit_or, testBit_complement hk]
  have hjk : (n.testBit j && k.testBit j) = false := by
    rw [← Nat.testBit_and, h, Nat.zero_testBit]
  by_cases hj : j < 64
  · cases hn' : n.testBit j <;> cases hk' : k.testBit j <;> simp_all
  · rw [testBit_of_word hn (by omega), testBit_of_word hk (by omega)]
    simp

/-- The signed value of the word with the single bit `k`. -/
theorem toInt_two_pow {b : BitMask} {k : Nat} (hk : k < 64) (hb : b.bits = 2 ^ k) :
    b.toInt = wrapInt (2 ^ k) ∧ (k < 63 → b.toInt = 2 ^ k) ∧ (k = 63 → b.toInt = -2 ^ 63) := by
  unfold BitMask.toInt
  rw [hb]
  interval_cases k <;> simp [wrapInt]

/-! ## Lemmas on the two field loops -/

/-- A tag that is a valid position parses to its position with a `nil` error. -/
theorem parseInt_of_validTag {t : String} (h : validTag t) : ParseInt t = (tagPos t, none) :=
  Prod.ext rfl h.1

/-- On a struct whose non-empty tags are valid positions the field loop of `Marshal`
completes without an error, and adds to the mask exactly the bits of the tagged
fields that count as set. -/
theorem marshalFields_wellTagged (fs : List Field) (hw : wellTagged fs) (b : BitMask) :
    ∃ m, marshalFields fs b = .done (m, none) ∧
      ∀ j, m.bits.testBit j = true ↔
        (b.bits.testBit j = true ∨
          ∃ f ∈ fs, f.tag ≠ "" ∧ truthy f.value = true ∧ (tagPos f.tag - 1).toNat = j) := by
  induction fs generalizing b with
  | nil => exact ⟨b, rfl, by simp⟩
  | cons f rest ih =>
    have hrest : wellTagged rest := fun g hg => hw g (List.mem_cons_of_mem _ hg)
    by_cases ht : f.tag = ""
    · obtain ⟨m, hm, hbits⟩ := ih hrest b
      refine ⟨m, by simp only [marshalFields, ht, if_true]; exact hm, fun j => ?_⟩
      rw [hbits j]
      constructor
      · rintro (h | ⟨g, hg, h⟩)
        · exact Or.inl h
        · exact Or.inr ⟨g, List.mem_cons_of_mem _ hg, h⟩
      · rintro (h | ⟨g, hg, h⟩)
        · exact Or.inl h
        · rcases List.mem_cons.1 hg with rfl | hg
          · exact absurd ht h.1
          · exact Or.inr ⟨g, hg, h⟩
    · have hv := hw f (List.mem_cons_self _ _) ht
      obtain ⟨c, hc, hcbits⟩ := marshalField_of_pos f.value b hv.2.1 hv.2.2
      obtain ⟨m, hm, hbits⟩ := ih hrest c
      have hrange : ¬ (tagPos f.tag < 1 ∨ tagPos f.tag > 64) := by
        have := hv.2.1; have := hv.2.2; omega
      refine ⟨m, ?_, fun j => ?_⟩
      · simp only [marshalFields, ht, if_false, parseInt_of_validTag hv, hrange, hc]
        exact hm
      · rw [hbits j, hcbits]
        by_cases htr : truthy f.value = true
        · rw [if_pos htr, Nat.testBit_or, Bool.or_eq_true, Nat.testBit_two_pow]
          constructor
          · rintro ((h | h) | ⟨g, hg, h⟩)
            · exact Or.inl h
            · exact Or.inr ⟨f, List.mem_cons_self _ _, ht, htr, of_decide_eq_true h⟩
            · exact Or.inr ⟨g, List.mem_cons_of_mem _ hg, h⟩
          · rintro (h | ⟨g, hg, h⟩)
            · exact Or.inl (Or.inl h)
            · rcases List.mem_cons.1 hg with rfl | hg
              · exact Or.inl (Or.inr (decide_eq_true h.2.2))
              · exact Or.inr ⟨g, hg, h⟩
        · rw [if_neg htr]
          constructor
          · rintro (h | ⟨g, hg, h⟩)
            · exact Or.inl h
            · exact Or.inr ⟨g, List.mem_cons_of_mem _ hg, h⟩
          · rintro (h | ⟨g, hg, h⟩)
            · exact Or.inl h
            · rcases List.mem_cons.1 hg with rfl | hg
              · exact absurd h.2.1 htr
              · exact Or.inr ⟨g, hg, h⟩

/-- The four ways the tag check of both field loops (lines 75-86 and 125-136) can
go for one field. -/
theorem tag_cases (t : String) :
    t = "" ∨ (t ≠ "" ∧ (ParseInt t).2 ≠ none) ∨
      (t ≠ "" ∧ (ParseInt t).2 = none ∧ (tagPos t < 1 ∨ tagPos t > 64)) ∨
      (t ≠ "" ∧ validTag t) := by
  by_cases h : t = ""
  · exact Or.inl h
  · by_cases he : (ParseInt t).2 = none
    · by_cases hr : tagPos t < 1 ∨ tagPos t > 64
      · exact Or.inr (Or.inr (Or.inl ⟨h, he, hr⟩))
      · exact Or.inr (Or.inr (Or.inr ⟨h, he, by omega, by omega⟩))
    · exact Or.inr (Or.inl ⟨h, he⟩)

/-- A tag whose parse fails takes the first `return` of the loop. -/
theorem parseInt_of_error {t : String} (h : (ParseInt t).2 ≠ none) :
    ∃ v e, ParseInt t = (v, some e) := by
  cases hp : ParseInt t with
  | mk v e =>
    cases e with
    | none => rw [hp] at h; exact absurd rfl h
    | some e => exact ⟨v, e, rfl⟩

/-- The `Marshal` loop over no fields returns the mask it has. -/
theorem marshalFields_nil (b : BitMask) : marshalFields [] b = .done (b, none) := rfl

/-- The `Marshal` loop skips a field without a tag (line 76). -/
theorem marshalFields_cons_untagged {f : Field} (rest : List Field) (b : BitMask)
    (h : f.tag = "") : marshalFields (f :: rest) b = marshalFields rest b := by
  simp only [marshalFields, h, if_true]

/-- The `Marshal` loop returns `ErrInvalidTagValue` at a tag that does not parse (line 82). -/
theorem marshalFields_cons_invalid {f : Field} (rest : List Field) (b : BitMask)
    (h : f.tag ≠ "") (he : (ParseInt f.tag).2 ≠ none) :
    marshalFields (f :: rest) b = .done (b, some (.wrapped .ErrInvalidTagValue f.tag)) := by
  obtain ⟨v, e, hp⟩ := parseInt_of_error he
  simp only [marshalFields, h, if_false, hp]

/-- The `Marshal` loop returns `ErrBitOutOfRange` at a tag outside `[1, 64]` (line 85). -/
theorem marshalFields_cons_range {f : Field} (rest : List Field) (b : BitMask)
    (h : f.tag ≠ "") (he : (ParseInt f.tag).2 = none)
    (hr : tagPos f.tag < 1 ∨ tagPos f.tag > 64) :
    marshalFields (f :: rest) b = .done (b, some (.wrapped .ErrBitOutOfRange f.tag)) := by
  have hp : ParseInt f.tag = (tagPos f.tag, none) := Prod.ext rfl he
  simp only [marshalFields, h, if_false, hp, hr, if_true]

/-- The `Marshal` loop at a valid tag runs the switch and goes on. -/
theorem marshalFields_cons_valid {f : Field} (rest : List Field) (b : BitMask)
    (h : f.tag ≠ "") (hv : validTag f.tag) :
    marshalFields (f :: rest) b =
      match marshalField f.value b (tagPos f.tag) with
      | .panicked msg => .panicked msg
      | .done c => marshalFields rest c := by
  have hrange : ¬ (tagPos f.tag < 1 ∨ tagPos f.tag > 64) := by
    have := hv.2.1; have := hv.2.2; omega
  simp only [marshalFields, h, if_false, parseInt_of_validTag hv, hrange]

/-- The `Unmarshal` loop skips a field without a tag (line 126). -/
theorem unmarshalFields_cons_untagged (m : BitMask) {f : Field} (rest : List Field)
    (h : f.tag = "") :
    unmarshalFields m (f :: rest) =
      ⟨f :: (unmarshalFields m rest).dest, (unmarshalFields m rest).ret⟩ := by
  simp only [unmarshalFields, h, if_true]

/-- The `Unmarshal` loop returns `ErrInvalidTagValue` at a tag that does not parse (line 132). -/
theorem unmarshalFields_cons_invalid (m : BitMask) {f : Field} (rest : List Field)
    (h : f.tag ≠ "") (he : (ParseInt f.tag).2 ≠ none) :
    unmarshalFields m (f :: rest) =
      ⟨f :: rest, .done (some (.wrapped .ErrInvalidTagValue f.tag))⟩ := by
  obtain ⟨v, e, hp⟩ := parseInt_of_error he
  simp only [unmarshalFields, h, if_false, hp]

/-- The `Unmarshal` loop returns `ErrBitOutOfRange` at a tag outside `[1, 64]` (line 135). -/
theorem unmarshalFields_cons_range (m : BitMask) {f : Field} (rest : List Field)
    (h : f.tag ≠ "") (he : (ParseInt f.tag).2 = none)
    (hr : tagPos f.tag < 1 ∨ tagPos f.tag > 64) :
    unmarshalFields m (f :: rest) =
      ⟨f :: rest, .done (some (.wrapped .ErrBitOutOfRange f.tag))⟩ := by
  have hp : ParseInt f.tag = (tagPos f.tag, none) := Prod.ext rfl he
  simp only [unmarshalFields, h, if_false, hp, hr, if_true]

/-- The `Unmarshal` loop at a valid tag runs the switch and goes on, unless the switch panics. -/
theorem unmarshalFields_cons_valid (m : BitMask) {f : Field} (rest : List Field)
    (h : f.tag ≠ "") (hv : validTag f.tag) :
    unmarshalFields m (f :: rest) =
      match unmarshalField m f (tagPos f.tag) with
      | .panicked msg => ⟨f :: rest, .panicked msg⟩
      | .done g => ⟨g :: (unmarshalFields m rest).dest, (unmarshalFields m rest).ret⟩ := by
  have hrange : ¬ (tagPos f.tag < 1 ∨ tagPos f.tag > 64) := by
    have := hv.2.1; have := hv.2.2; omega
  simp only [unmarshalFields, h, if_false, parseInt_of_validTag hv, hrange]

/-- The three ways the `Unmarshal` switch can go for a field at a valid position:
nothing to write, a write, or a write that `reflect` refuses. -/
theorem unmarshalField_cases (m : BitMask) (f : Field) {p : Int} (h1 : 1 ≤ p) (h2 : p ≤ 64) :
    (unmarshalField m f p = .done f ∧
        ¬ (participatingKind f.value.Kind = true ∧ m.IsSet p = .done true)) ∨
      (unmarshalField m f p = .done f.written ∧ participatingKind f.value.Kind = true ∧
        m.IsSet p = .done true ∧ f.exported = true) ∨
      ((∃ msg, unmarshalField m f p = .panicked msg) ∧ participatingKind f.value.Kind = true ∧
        m.IsSet p = .done true ∧ f.exported = false) := by
  obtain ⟨name, exported, tag, value⟩ := f
  have hi := IsSet_of_pos m h1 h2
  generalize m.bits.testBit (p - 1).toNat = s at hi
  rw [hi]
  cases s
  · left
    cases value with
    | bool x => simp [unmarshalField, FieldValue.Kind, Run.bind, hi]
    | int k n =>
      cases k <;> simp [unmarshalField, FieldValue.Kind, IntKind.toKind, Run.bind, hi]
    | uint k n =>
      cases k <;> simp [unmarshalField, FieldValue.Kind, UintKind.toKind, Run.bind, hi]
    | other k data =>
      cases k <;> simp [unmarshalField, FieldValue.Kind, OtherKind.toKind]
  · cases value with
    | bool x =>
      cases exported <;>
        simp [unmarshalField, FieldValue.Kind, Run.bind, hi,
          Field.SetBool, Field.written, oneOf, participatingKind]
    | int k n =>
      cases exported <;> cases k <;>
        simp [unmarshalField, FieldValue.Kind, IntKind.toKind, Run.bind, hi,
          Field.SetInt, Field.written, oneOf, participatingKind]
    | uint k n =>
      cases exported <;> cases k <;>
        simp [unmarshalField, FieldValue.Kind, UintKind.toKind, Run.bind, hi,
          Field.SetUint, Field.written, oneOf, participatingKind]
    | other k data =>
      left
      cases k <;> simp [unmarshalField, FieldValue.Kind, OtherKind.toKind, participatingKind]

/-- At a valid tag the `Unmarshal` switch either leaves the field as `applyMask`
describes, or panics on an unexported field whose bit is set. -/
theorem unmarshalField_valid (m : BitMask) (f : Field) (ht : f.tag ≠ "")
    (hv : validTag f.tag) :
    unmarshalField m f (tagPos f.tag) = .done (applyMask m f) ∨
      ((∃ msg, unmarshalField m f (tagPos f.tag) = .panicked msg) ∧ f.participates = true ∧
        m.IsSet (tagPos f.tag) = .done true ∧ f.exported = false) := by
  have hpart : f.participates = participatingKind f.value.Kind := by
    simp [Field.participates, ht]
  rcases unmarshalField_cases m f hv.2.1 hv.2.2 with ⟨h, hn⟩ | ⟨h, hk, hs, _⟩ | ⟨h, hk, hs, he⟩
  · left
    rw [h, applyMask, if_neg (by rw [hpart]; exact hn)]
  · left
    rw [h, applyMask, if_pos ⟨by rw [hpart]; exact hk, hs⟩]
  · right
    exact ⟨h, by rw [hpart]; exact hk, hs, he⟩

/-- A field without a tag is left as it is. -/
theorem applyMask_untagged (m : BitMask) {f : Field} (h : f.tag = "") : applyMask m f = f := by
  simp [applyMask, Field.participates, h]

/-- The `Marshal` loop over a list in two parts: the second part is reached only
when the first one ends without an error, with the mask accumulated so far. -/
theorem marshalFields_append (pre post : List Field) (b : BitMask) :
    marshalFields (pre ++ post) b =
      match marshalFields pre b with
      | .done (c, none) => marshalFields post c
      | r => r := by
  induction pre generalizing b with
  | nil => rfl
  | cons f rest ih =>
    rw [List.cons_append]
    rcases tag_cases f.tag with h | ⟨h, he⟩ | ⟨h, he, hr⟩ | ⟨h, hv⟩
    · rw [marshalFields_cons_untagged _ _ h, marshalFields_cons_untagged _ _ h, ih]
    · rw [marshalFields_cons_invalid _ _ h he, marshalFields_cons_invalid _ _ h he]
    · rw [marshalFields_cons_range _ _ h he hr, marshalFields_cons_range _ _ h he hr]
    · rw [marshalFields_cons_valid _ _ h hv, marshalFields_cons_valid _ _ h hv]
      obtain ⟨c, hc, -⟩ := marshalField_of_pos f.value b hv.2.1 hv.2.2
      simp only [hc]
      exact ih c

/-- The `Unmarshal` loop over a list in two parts: the second part is visited only
when the first one ends with a nil error; otherwise it is left as it is. -/
theorem unmarshalFields_append (m : BitMask) (pre post : List Field) :
    unmarshalFields m (pre ++ post) =
      match (unmarshalFields m pre).ret with
      | .done none =>
        ⟨(unmarshalFields m pre).dest ++ (unmarshalFields m post).dest,
          (unmarshalFields m post).ret⟩
      | r => ⟨(unmarshalFields m pre).dest ++ post, r⟩ := by
  induction pre with
  | nil => simp [unmarshalFields]
  | cons f rest ih =>
    rw [List.cons_append]
    rcases tag_cases f.tag with h | ⟨h, he⟩ | ⟨h, he, hr⟩ | ⟨h, hv⟩
    · rw [unmarshalFields_cons_untagged _ _ h, unmarshalFields_cons_untagged _ _ h, ih]
      simp only
      split <;> simp
    · rw [unmarshalFields_cons_invalid _ _ h he, unmarshalFields_cons_invalid _ _ h he]
      simp
    · rw [unmarshalFields_cons_range _ _ h he hr, unmarshalFields_cons_range _ _ h he hr]
      simp
    · rw [unmarshalFields_cons_valid _ _ h hv, unmarshalFields_cons_valid _ _ h hv]
      cases unmarshalField m f (tagPos f.tag) with
      | panicked msg => simp
      | done g =>
        simp only [ih]
        split <;> simp

/-- When every non-empty tag is valid and no unexported field is due a write, the
`Unmarshal` loop returns nil and leaves each field as `applyMask` describes. -/
theorem unmarshalFields_wellTagged (m : BitMask) (fs : List Field) (hw : wellTagged fs)
    (hx : ∀ f ∈ fs, f.participates = true → m.IsSet (tagPos f.tag) = .done true →
      f.exported = true) :
    unmarshalFields m fs = ⟨fs.map (applyMask m), .done none⟩ := by
  induction fs with
  | nil => rfl
  | cons f rest ih =>
    have ihr := ih (fun g hg => hw g (List.mem_cons_of_mem _ hg))
      (fun g hg => hx g (List.mem_cons_of_mem _ hg))
    by_cases h : f.tag = ""
    · rw [unmarshalFields_cons_untagged _ _ h, ihr, List.map_cons, applyMask_untagged m h]
    · have hv := hw f (List.mem_cons_self _ _) h
      rw [unmarshalFields_cons_valid _ _ h hv]
      rcases unmarshalField_valid m f h hv with hd | ⟨-, hp, hs, he⟩
      · rw [hd, ihr, List.map_cons]
      · have := hx f (List.mem_cons_self _ _) hp hs
        rw [he] at this
        cases this

/-- When the `Unmarshal` loop returns nil, every non-empty tag was valid and each
field is left as `applyMask` describes. -/
theorem unmarshalFields_of_nil (m : BitMask) (fs : List Field)
    (h : (unmarshalFields m fs).ret = .done none) :
    wellTagged fs ∧ (unmarshalFields m fs).dest = fs.map (applyMask m) := by
  induction fs with
  | nil => exact ⟨fun _ hf => absurd hf (List.not_mem_nil _), rfl⟩
  | cons f rest ih =>
    rcases tag_cases f.tag with ht | ⟨ht, he⟩ | ⟨ht, he, hr⟩ | ⟨ht, hv⟩
    · rw [unmarshalFields_cons_untagged _ _ ht] at h ⊢
      obtain ⟨hw, hd⟩ := ih h
      refine ⟨fun g hg => ?_, by simp only [hd, List.map_cons, applyMask_untagged m ht]⟩
      rcases List.mem_cons.1 hg with rfl | hg
      · exact fun hne => absurd ht hne
      · exact hw g hg
    · rw [unmarshalFields_cons_invalid _ _ ht he] at h
      cases h
    · rw [unmarshalFields_cons_range _ _ ht he hr] at h
      cases h
    · rw [unmarshalFields_cons_valid _ _ ht hv] at h ⊢
      rcases unmarshalField_valid m f ht hv with hd | ⟨⟨msg, hp⟩, -⟩
      · rw [hd] at h ⊢
        obtain ⟨hw, hdest⟩ := ih h
        refine ⟨fun g hg => ?_, by simp only [hdest, List.map_cons]⟩
        rcases List.mem_cons.1 hg with rfl | hg
        · exact fun _ => hv
        · exact hw g hg
      · rw [hp] at h
        cases h

/-- Fields related position by position are related at every index. -/
theorem forall₂_getElem? {α β : Type} {R : α → β → Prop} {l₁ : List α} {l₂ : List β}
    (h : List.Forall₂ R l₁ l₂) :
    ∀ (i : Nat) (a : α) (b : β), l₁[i]? = some a → l₂[i]? = some b → R a b := by
  induction h with
  | nil => intro i a b ha; simp at ha
  | cons hab _ ih =>
    intro i a b ha hb
    cases i with
    | zero =>
      simp only [List.getElem?_cons_zero, Option.some.injEq] at ha hb
      subst ha; subst hb; exact hab
    | succ i =>
      simp only [List.getElem?_cons_succ] at ha hb
      exact ih i a b ha hb

/-- However the `Unmarshal` loop ends, each field is either as it was or as
`applyMask` describes. -/
theorem unmarshalFields_rel (m : BitMask) (fs : List Field) :
    List.Forall₂ (fun f g => g = f ∨ g = applyMask m f) fs (unmarshalFields m fs).dest := by
  have hrefl : ∀ l : List Field, List.Forall₂ (fun f g => g = f ∨ g = applyMask m f) l l := by
    intro l
    induction l with
    | nil => exact List.Forall₂.nil
    | cons a l ih => exact List.Forall₂.cons (Or.inl rfl) ih
  induction fs with
  | nil => exact List.Forall₂.nil
  | cons f rest ih =>
    rcases tag_cases f.tag with ht | ⟨ht, he⟩ | ⟨ht, he, hr⟩ | ⟨ht, hv⟩
    · rw [unmarshalFields_cons_untagged _ _ ht]
      exact List.Forall₂.cons (Or.inl rfl) ih
    · rw [unmarshalFields_cons_invalid _ _ ht he]
      exact hrefl _
    · rw [unmarshalFields_cons_range _ _ ht he hr]
      exact hrefl _
    · rw [unmarshalFields_cons_valid _ _ ht hv]
      rcases unmarshalField_valid m f ht hv with hd | ⟨⟨msg, hp⟩, -⟩
      · rw [hd]
        exact List.Forall₂.cons (Or.inr rfl) ih
      · rw [hp]
        exact hrefl _

/-- The `Marshal` loop never panics: it returns a mask and an error or nil. -/
theorem marshalFields_returns (fs : List Field) (b : BitMask) :
    ∃ m e, marshalFields fs b = .done (m, e) := by
  induction fs generalizing b with
  | nil => exact ⟨b, none, rfl⟩
  | cons f rest ih =>
    rcases tag_cases f.tag with ht | ⟨ht, he⟩ | ⟨ht, he, hr⟩ | ⟨ht, hv⟩
    · rw [marshalFields_cons_untagged _ _ ht]; exact ih b
    · rw [marshalFields_cons_invalid _ _ ht he]; exact ⟨_, _, rfl⟩
    · rw [marshalFields_cons_range _ _ ht he hr]; exact ⟨_, _, rfl⟩
    · rw [marshalFields_cons_valid _ _ ht hv]
      obtain ⟨c, hc, -⟩ := marshalField_of_pos f.value b hv.2.1 hv.2.2
      rw [hc]; exact ih c

/-- A tag that is in error is not a valid position. -/
theorem not_validTag_of_isTagError {t : String} {e : Error} (h : isTagError t e) :
    ¬ validTag t := by
  rintro ⟨h1, h2, h3⟩
  rcases h with ⟨he, -⟩ | ⟨-, hr, -⟩
  · exact he h1
  · omega

/-- When the `Marshal` loop returns an error, the struct splits at the first field
whose tag is in error, and the mask returned is the one accumulated over the fields
before it. -/
theorem marshalFields_of_error (fs : List Field) (b m : BitMask) (e : Error)
    (h : marshalFields fs b = .done (m, some e)) :
    ∃ pre f post, fs = pre ++ f :: post ∧ wellTagged pre ∧
      marshalFields pre b = .done (m, none) ∧ f.tag ≠ "" ∧ isTagError f.tag e := by
  induction fs generalizing b with
  | nil => simp [marshalFields] at h
  | cons f rest ih =>
    rcases tag_cases f.tag with ht | ⟨ht, he⟩ | ⟨ht, he, hr⟩ | ⟨ht, hv⟩
    · rw [marshalFields_cons_untagged _ _ ht] at h
      obtain ⟨pre, g, post, hfs, hw, hm, hg⟩ := ih b h
      refine ⟨f :: pre, g, post, by rw [hfs]; rfl, ?_, ?_, hg⟩
      · intro x hx
        rcases List.mem_cons.1 hx with rfl | hx
        · exact fun hne => absurd ht hne
        · exact hw x hx
      · rw [marshalFields_cons_untagged _ _ ht]; exact hm
    · rw [marshalFields_cons_invalid _ _ ht he] at h
      simp only [Run.done.injEq, Prod.mk.injEq, Option.some.injEq] at h
      obtain ⟨rfl, rfl⟩ := h
      exact ⟨[], f, rest, rfl, fun _ hx => absurd hx (List.not_mem_nil _), rfl, ht,
        Or.inl ⟨he, rfl⟩⟩
    · rw [marshalFields_cons_range _ _ ht he hr] at h
      simp only [Run.done.injEq, Prod.mk.injEq, Option.some.injEq] at h
      obtain ⟨rfl, rfl⟩ := h
      exact ⟨[], f, rest, rfl, fun _ hx => absurd hx (List.not_mem_nil _), rfl, ht,
        Or.inr ⟨he, hr, rfl⟩⟩
    · rw [marshalFields_cons_valid _ _ ht hv] at h
      obtain ⟨c, hc, -⟩ := marshalField_of_pos f.value b hv.2.1 hv.2.2
      rw [hc] at h
      obtain ⟨pre, g, post, hfs, hw, hm, hg⟩ := ih c h
      refine ⟨f :: pre, g, post, by rw [hfs]; rfl, ?_, ?_, hg⟩
      · intro x hx
        rcases List.mem_cons.1 hx with rfl | hx
        · exact fun _ => hv
        · exact hw x hx
      · rw [marshalFields_cons_valid _ _ ht hv, hc]; exact hm

/-- When the `Unmarshal` loop returns an error, the struct splits at the first field
whose tag is in error; the fields before it are left as by a call that returns
nil, the field itself and the fields after it are as they were. -/
theorem unmarshalFields_of_error (m : BitMask) (fs : List Field) (e : Error)
    (h : (unmarshalFields m fs).ret = .done (some e)) :
    ∃ pre f post, fs = pre ++ f :: post ∧
      unmarshalFields m pre = ⟨pre.map (applyMask m), .done none⟩ ∧
      (unmarshalFields m fs).dest = pre.map (applyMask m) ++ f :: post ∧
      f.tag ≠ "" ∧ isTagError f.tag e := by
  induction fs with
  | nil => simp [unmarshalFields] at h
  | cons f rest ih =>
    rcases tag_cases f.tag with ht | ⟨ht, he⟩ | ⟨ht, he, hr⟩ | ⟨ht, hv⟩
    · rw [unmarshalFields_cons_untagged _ _ ht] at h ⊢
      obtain ⟨pre, g, post, hfs, hpre, hdest, hg⟩ := ih h
      refine ⟨f :: pre, g, post, by rw [hfs]; rfl, ?_, ?_, hg⟩
      · rw [unmarshalFields_cons_untagged _ _ ht, hpre, List.map_cons, applyMask_untagged m ht]
      · simp only [hdest, List.map_cons, applyMask_untagged m ht, List.cons_append]
    · rw [unmarshalFields_cons_invalid _ _ ht he] at h ⊢
      simp only [Run.done.injEq, Option.some.injEq] at h
      subst h
      exact ⟨[], f, rest, rfl, rfl, rfl, ht, Or.inl ⟨he, rfl⟩⟩
    · rw [unmarshalFields_cons_range _ _ ht he hr] at h ⊢
      simp only [Run.done.injEq, Option.some.injEq] at h
      subst h
      exact ⟨[], f, rest, rfl, rfl, rfl, ht, Or.inr ⟨he, hr, rfl⟩⟩
    · rw [unmarshalFields_cons_valid _ _ ht hv] at h ⊢
      rcases unmarshalField_valid m f ht hv with hd | ⟨⟨msg, hp⟩, -⟩
      · rw [hd] at h ⊢
        obtain ⟨pre, g, post, hfs, hpre, hdest, hg⟩ := ih h
        refine ⟨f :: pre, g, post, by rw [hfs]; rfl, ?_, ?_, hg⟩
        · rw [unmarshalFields_cons_valid _ _ ht hv, hd, hpre, List.map_cons]
        · simp only [hdest, List.map_cons, List.cons_append]
      · rw [hp] at h
        cases h

/-- `Marshal` of a struct value is the field loop started from the zero mask. -/
theorem Marshal_struct (fs : List Field) :
    Marshal (.struct fs) = marshalFields fs BitMask.zero := by
  simp only [Marshal]

/-- The `Marshal` loop stops at a field whose tag is in error, with the mask it has. -/
theorem marshalFields_cons_of_isTagError {f : Field} (post : List Field) (b : BitMask)
    {e : Error} (ht : f.tag ≠ "") (h : isTagError f.tag e) :
    marshalFields (f :: post) b = .done (b, some e) := by
  rcases h with ⟨he, rfl⟩ | ⟨he, hr, rfl⟩
  · exact marshalFields_cons_invalid _ _ ht he
  · exact marshalFields_cons_range _ _ ht he hr

/-- The `Unmarshal` loop stops at a field whose tag is in error. -/
theorem unmarshalFields_cons_of_isTagError (m : BitMask) {f : Field} (post : List Field)
    {e : Error} (ht : f.tag ≠ "") (h : isTagError f.tag e) :
    unmarshalFields m (f :: post) = ⟨f :: post, .done (some e)⟩ := by
  rcases h with ⟨he, rfl⟩ | ⟨he, hr, rfl⟩
  · exact unmarshalFields_cons_invalid _ _ ht he
  · exact unmarshalFields_cons_range _ _ ht he hr

/-- `Marshal` on a struct whose first field with a tag in error is `f`: the error is
the one of `f`, the mask the one of the fields before it. -/
theorem marshalFields_split {pre : List Field} {f : Field} (post : List Field) {e : Error}
    (hw : wellTagged pre) (ht : f.tag ≠ "") (h : isTagError f.tag e) (b : BitMask) :
    ∃ c, marshalFields pre b = .done (c, none) ∧
      marshalFields (pre ++ f :: post) b = .done (c, some e) := by
  obtain ⟨c, hc, -⟩ := marshalFields_wellTagged pre hw b
  refine ⟨c, hc, ?_⟩
  rw [marshalFields_append, hc]
  exact marshalFields_cons_of_isTagError post c ht h

/-- `Unmarshal` on a struct whose first field with a tag in error is `f`, when no
unexported field before it is due a write. -/
theorem unmarshalFields_split (m : BitMask) {pre : List Field} {f : Field}
    (post : List Field) {e : Error} (hw : wellTagged pre)
    (hx : ∀ g ∈ pre, g.participates = true → m.IsSet (tagPos g.tag) = .done true →
      g.exported = true)
    (ht : f.tag ≠ "") (h : isTagError f.tag e) :
    unmarshalFields m (pre ++ f :: post) =
      ⟨pre.map (applyMask m) ++ f :: post, .done (some e)⟩ := by
  rw [unmarshalFields_append, unmarshalFields_wellTagged m pre hw hx,
    unmarshalFields_cons_of_isTagError m post ht h]

/-- When the `Unmarshal` loop panics, an unexported field that takes part had its bit
set in the mask. -/
theorem unmarshalFields_of_panic (m : BitMask) (fs : List Field) (msg : String)
    (h : (unmarshalFields m fs).ret = .panicked msg) :
    ∃ f ∈ fs, f.participates = true ∧ m.IsSet (tagPos f.tag) = .done true ∧
      f.exported = false := by
  induction fs with
  | nil => simp [unmarshalFields] at h
  | cons f rest ih =>
    rcases tag_cases f.tag with ht | ⟨ht, he⟩ | ⟨ht, he, hr⟩ | ⟨ht, hv⟩
    · rw [unmarshalFields_cons_untagged _ _ ht] at h
      obtain ⟨g, hg, hrest⟩ := ih h
      exact ⟨g, List.mem_cons_of_mem _ hg, hrest⟩
    · rw [unmarshalFields_cons_invalid _ _ ht he] at h
      cases h
    · rw [unmarshalFields_cons_range _ _ ht he hr] at h
      cases h
    · rw [unmarshalFields_cons_valid _ _ ht hv] at h
      rcases unmarshalField_valid m f ht hv with hd | ⟨-, hf⟩
      · rw [hd] at h
        obtain ⟨g, hg, hrest⟩ := ih h
        exact ⟨g, List.mem_cons_of_mem _ hg, hrest⟩
      · exact ⟨f, List.mem_cons_self _ _, hf⟩

/-- `Unmarshal` into a non-nil pointer to a struct is the field loop over the struct. -/
theorem Unmarshal_ptr_struct (m : BitMask) (fs : List Field) :
    Unmarshal m (.ptr (.struct fs)) =
      ⟨.ptr (.struct (unmarshalFields m fs).dest), (unmarshalFields m fs).ret⟩ := by
  simp only [Unmarshal]

/-- A field that takes part and whose bit is set is left holding `true` or `1`. -/
theorem applyMask_value_of_set (m : BitMask) (f : Field) (ht : f.tag ≠ "")
    (hs : m.IsSet (tagPos f.tag) = .done true) :
    (f.value.Kind = .Bool → (applyMask m f).value = .bool true) ∧
      (∀ k n, f.value = .int k n → (applyMask m f).value = .int k 1) ∧
      (∀ k n, f.value = .uint k n → k ≠ .Uintptr → (applyMask m f).value = .uint k 1) := by
  obtain ⟨name, exported, tag, value⟩ := f
  refine ⟨?_, ?_, ?_⟩
  · intro hk
    cases value with
    | bool x => simp_all [applyMask, Field.participates, FieldValue.Kind, participatingKind,
        Field.written, oneOf]
    | int k n => cases k <;> simp [FieldValue.Kind, IntKind.toKind] at hk
    | uint k n => cases k <;> simp [FieldValue.Kind, UintKind.toKind] at hk
    | other k data => cases k <;> simp [FieldValue.Kind, OtherKind.toKind] at hk
  · intro k n hv
    simp only at hv
    subst hv
    cases k <;> simp_all [applyMask, Field.participates, FieldValue.Kind, IntKind.toKind,
      participatingKind, Field.written, oneOf]
  · intro k n hv hk
    simp only at hv
    subst hv
    cases k <;> simp_all [applyMask, Field.participates, FieldValue.Kind, UintKind.toKind,
      participatingKind, Field.written, oneOf]

/-- A field that is untagged, or of a kind outside the `case` lists, or whose bit is
not set, is left as it is. -/
theorem applyMask_eq_self (m : BitMask) (f : Field)
    (h : f.tag = "" ∨ participatingKind f.value.Kind = false ∨
      m.IsSet (tagPos f.tag) ≠ .done true) : applyMask m f = f := by
  unfold applyMask
  rw [if_neg]
  rintro ⟨hp, hs⟩
  simp only [Field.participates, Bool.and_eq_true, decide_eq_true_eq] at hp
  rcases h with h | h | h
  · exact hp.1 h
  · rw [hp.2] at h; cases h
  · exact h hs

/-- The zero value has the kind of the value. -/
theorem kind_zeroOf (v : FieldValue) : (zeroOf v).Kind = v.Kind := by
  cases v <;> rfl

/-- A fresh field takes part exactly when the field does. -/
theorem fresh_participates (f : Field) : (Field.fresh f).participates = f.participates := by
  simp [Field.participates, Field.fresh, kind_zeroOf]

/-- Writing over the zero value gives what writing over the value gives. -/
theorem oneOf_zeroOf {v : FieldValue} (h : participatingKind v.Kind = true) :
    oneOf (zeroOf v) = oneOf v := by
  cases v with
  | bool x => rfl
  | int k n => rfl
  | uint k n => cases k <;> simp_all [FieldValue.Kind, UintKind.toKind, participatingKind, oneOf, zeroOf]
  | other k data => cases k <;> simp [FieldValue.Kind, OtherKind.toKind, participatingKind] at h

/-- A value that counts as set has a kind of the `case` lists. -/
theorem participatingKind_of_truthy {v : FieldValue} (h : truthy v = true) :
    participatingKind v.Kind = true := by
  cases v with
  | bool x => rfl
  | int k n => cases k <;> rfl
  | uint k n => cases k <;> simp_all [truthy, FieldValue.Kind, UintKind.toKind, participatingKind]
  | other k data => simp [truthy] at h

/-- What `Marshal` returns on a struct whose non-empty tags are valid positions: a nil
error, and a mask whose bit `j` is set exactly when a tagged field at position
`j + 1` counts as set. -/
theorem Marshal_wellTagged (fs : List Field) (hw : wellTagged fs) :
    ∃ m, Marshal (.struct fs) = .done (m, none) ∧
      ∀ j, m.bits.testBit j = true ↔
        ∃ f ∈ fs, f.tag ≠ "" ∧ truthy f.value = true ∧ (tagPos f.tag - 1).toNat = j := by
  obtain ⟨m, hm, hbits⟩ := marshalFields_wellTagged fs hw BitMask.zero
  refine ⟨m, by rw [Marshal_struct]; exact hm, fun j => ?_⟩
  rw [hbits]
  constructor
  · rintro (h | h)
    · simp [BitMask.zero] at h
    · exact h
  · exact Or.inr

/-! ## Lemmas on pointers, inert fields and the round trip -/

/-- What is not a chain of non-nil pointers ending at a struct is rejected with
`ErrNotAStructPointer` and left as it is. -/
theorem Unmarshal_of_not_chain (m : BitMask) (v : Value) (h : structPointerChain v = false) :
    Unmarshal m v = ⟨v, .done (some (.plain .ErrNotAStructPointer))⟩ := by
  induction v with
  | invalid => simp only [Unmarshal]
  | nilPtr t => simp only [Unmarshal]
  | iface dyn _ => simp only [Unmarshal]
  | struct fs => simp only [Unmarshal]
  | other k => simp only [Unmarshal]
  | ptr elem ih =>
    cases elem with
    | invalid => simp only [Unmarshal]
    | nilPtr t => simp only [Unmarshal]
    | iface dyn => simp only [Unmarshal]
    | other k => simp only [Unmarshal]
    | struct fs => simp [structPointerChain] at h
    | ptr e =>
      simp only [structPointerChain] at h
      simp only [Unmarshal, ih h]

/-- The errors of the field loop are not `ErrNotAStructPointer`. -/
theorem not_ErrNotAStructPointer_of_isTagError {t : String} {e : Error}
    (h : isTagError t e) : e.Is .ErrNotAStructPointer = false := by
  rcases h with ⟨-, rfl⟩ | ⟨-, -, rfl⟩ <;> simp [Error.Is, Error.sentinel]

/-- On a chain of non-nil pointers ending at a struct, `Unmarshal` never returns
`ErrNotAStructPointer`. -/
theorem Unmarshal_of_chain (m : BitMask) (v : Value) (h : structPointerChain v = true)
    (e : Error) (he : (Unmarshal m v).ret = .done (some e)) :
    e.Is .ErrNotAStructPointer = false := by
  induction v with
  | invalid => simp [structPointerChain] at h
  | nilPtr t => simp [structPointerChain] at h
  | iface dyn _ => simp [structPointerChain] at h
  | struct fs => simp [structPointerChain] at h
  | other k => simp [structPointerChain] at h
  | ptr elem ih =>
    cases elem with
    | invalid => simp [structPointerChain] at h
    | nilPtr t => simp [structPointerChain] at h
    | iface dyn => simp [structPointerChain] at h
    | other k => simp [structPointerChain] at h
    | struct fs =>
      rw [Unmarshal_ptr_struct] at he
      obtain ⟨pre, f, post, -, -, -, -, hte⟩ := unmarshalFields_of_error m fs e he
      exact not_ErrNotAStructPointer_of_isTagError hte
    | ptr e' =>
      simp only [structPointerChain] at h
      simp only [Unmarshal] at he
      exact ih h he

/-- A value of a kind outside the `case` lists does not count as set. -/
theorem truthy_of_not_participatingKind {v : FieldValue}
    (h : participatingKind v.Kind = false) : truthy v = false := by
  cases ht : truthy v with
  | false => rfl
  | true => rw [participatingKind_of_truthy ht] at h; cases h

/-- The `Marshal` loop passes a field of a kind outside the `case` lists, when its
tag is empty or a valid position, without changing the mask. -/
theorem marshalFields_cons_inert {f : Field} (rest : List Field) (b : BitMask)
    (hk : participatingKind f.value.Kind = false) (ht : f.tag = "" ∨ validTag f.tag) :
    marshalFields (f :: rest) b = marshalFields rest b := by
  by_cases h : f.tag = ""
  · exact marshalFields_cons_untagged rest b h
  · have hv : validTag f.tag := ht.resolve_left h
    obtain ⟨c, hc, hbits⟩ := marshalField_of_pos f.value b hv.2.1 hv.2.2
    rw [truthy_of_not_participatingKind hk] at hbits
    have hcb : c = b := BitMask.ext_bits (by simpa using hbits)
    rw [marshalFields_cons_valid rest b h hv, hc, hcb]

/-- The `Unmarshal` loop passes a field of a kind outside the `case` lists, when its
tag is empty or a valid position, without writing it. -/
theorem unmarshalFields_cons_inert (m : BitMask) {f : Field} (rest : List Field)
    (hk : participatingKind f.value.Kind = false) (ht : f.tag = "" ∨ validTag f.tag) :
    unmarshalFields m (f :: rest) =
      ⟨f :: (unmarshalFields m rest).dest, (unmarshalFields m rest).ret⟩ := by
  by_cases h : f.tag = ""
  · exact unmarshalFields_cons_untagged m rest h
  · have hv : validTag f.tag := ht.resolve_left h
    rw [unmarshalFields_cons_valid m rest h hv]
    rcases unmarshalField_cases m f hv.2.1 hv.2.2 with ⟨hd, -⟩ | ⟨-, hp, -⟩ | ⟨-, hp, -⟩
    · rw [hd]
    · rw [hk] at hp; cases hp
    · rw [hk] at hp; cases hp

/-- The `Unmarshal` loop keeps the number of fields. -/
theorem unmarshalFields_length (m : BitMask) (fs : List Field) :
    (unmarshalFields m fs).dest.length = fs.length :=
  (unmarshalFields_rel m fs).length_eq.symm

/-- On a struct whose non-empty tags are valid positions, the `Unmarshal` loop panics
when an unexported field that takes part has its bit set in the mask. -/
theorem unmarshalFields_panics (m : BitMask) (fs : List Field) (hw : wellTagged fs)
    (h : ∃ f ∈ fs, f.participates = true ∧ m.IsSet (tagPos f.tag) = .done true ∧
      f.exported = false) :
    ∃ msg, (unmarshalFields m fs).ret = .panicked msg := by
  induction fs with
  | nil =>
    obtain ⟨f, hf, -⟩ := h
    exact absurd hf (List.not_mem_nil _)
  | cons f rest ih =>
    have hrest : wellTagged rest := fun g hg => hw g (List.mem_cons_of_mem _ hg)
    obtain ⟨g, hg, hp, hs, hx⟩ := h
    have hgt : g.tag ≠ "" ∧ participatingKind g.value.Kind = true := by
      simpa [Field.participates] using hp
    by_cases ht : f.tag = ""
    · rw [unmarshalFields_cons_untagged m rest ht]
      rcases List.mem_cons.1 hg with rfl | hg
      · exact absurd ht hgt.1
      · exact ih hrest ⟨g, hg, hp, hs, hx⟩
    · have hv := hw f (List.mem_cons_self _ _) ht
      rw [unmarshalFields_cons_valid m rest ht hv]
      rcases unmarshalField_cases m f hv.2.1 hv.2.2 with
        ⟨hd, hn⟩ | ⟨hd, -, -, hex⟩ | ⟨⟨msg, hpanic⟩, -⟩
      · rw [hd]
        rcases List.mem_cons.1 hg with rfl | hg
        · exact absurd ⟨hgt.2, hs⟩ hn
        · exact ih hrest ⟨g, hg, hp, hs, hx⟩
      · rw [hd]
        rcases List.mem_cons.1 hg with rfl | hg
        · rw [hex] at hx; cases hx
        · exact ih hrest ⟨g, hg, hp, hs, hx⟩
      · rw [hpanic]
        exact ⟨msg, rfl⟩

/-- On a non-nil pointer to a struct whose non-empty tags are valid positions,
`Unmarshal` returns nil when no unexported field that takes part has its bit set in
the mask, as is the case when all these fields are exported; when there is such a
field it panics. -/
theorem Unmarshal_wellTagged (m : BitMask) (fs : List Field) (hw : wellTagged fs) :
    ((∀ f ∈ fs, f.participates = true → m.IsSet (tagPos f.tag) = .done true →
        f.exported = true) →
      (Unmarshal m (.ptr (.struct fs))).ret = .done none) ∧
    ((∀ f ∈ fs, f.participates = true → f.exported = true) →
      (Unmarshal m (.ptr (.struct fs))).ret = .done none) ∧
    ((∃ f ∈ fs, f.participates = true ∧ m.IsSet (tagPos f.tag) = .done true ∧
        f.exported = false) →
      ∃ msg, (Unmarshal m (.ptr (.struct fs))).ret = .panicked msg) := by
  rw [Unmarshal_ptr_struct]
  refine ⟨fun hx => ?_, fun hx => ?_, fun h => unmarshalFields_panics m fs hw h⟩
  · rw [unmarshalFields_wellTagged m fs hw hx]
  · rw [unmarshalFields_wellTagged m fs hw (fun f hf hp _ => hx f hf hp)]

/-- The zero value does not count as set. -/
theorem truthy_zeroOf (v : FieldValue) : truthy (zeroOf v) = false := by
  cases v <;> simp [truthy, zeroOf]

/-- The value written over a zero value counts as set exactly for the kinds of the
`case` lists. -/
theorem truthy_oneOf_zeroOf (v : FieldValue) :
    truthy (oneOf (zeroOf v)) = participatingKind v.Kind := by
  cases v with
  | bool x => rfl
  | int k n => cases k <;> rfl
  | uint k n => cases k <;> rfl
  | other k data => cases k <;> rfl

/-- `applyMask` keeps the tag of a field. -/
theorem applyMask_tag (m : BitMask) (f : Field) : (applyMask m f).tag = f.tag := by
  unfold applyMask
  split <;> rfl

/-- After `Unmarshal` into a fresh field, the field counts as set exactly when it
takes part and its bit is set in the mask. -/
theorem truthy_applyMask_fresh (m : BitMask) (f : Field) :
    truthy (applyMask m (Field.fresh f)).value = true ↔
      (f.participates = true ∧ m.IsSet (tagPos f.tag) = .done true) := by
  have htag : (Field.fresh f).tag = f.tag := rfl
  unfold applyMask
  rw [fresh_participates, htag]
  by_cases h : f.participates = true ∧ m.IsSet (tagPos f.tag) = .done true
  · rw [if_pos h]
    have hk : participatingKind f.value.Kind = true := by
      have := h.1
      simp only [Field.participates, Bool.and_eq_true, decide_eq_true_eq] at this
      exact this.2
    have : truthy (Field.written (Field.fresh f)).value = true := by
      show truthy (oneOf (zeroOf f.value)) = true
      rw [truthy_oneOf_zeroOf, hk]
    exact ⟨fun _ => h, fun _ => this⟩
  · rw [if_neg h]
    have : truthy (Field.fresh f).value = false := truthy_zeroOf f.value
    rw [this]
    exact ⟨fun hf => Bool.noConfusion hf, fun hf => absurd hf h⟩

/-- Bit `j` of the OR of the tagged positions is set exactly when a field that takes
part is tagged with position `j + 1`. -/
theorem testBit_positionsMask (fs : List Field) (j : Nat) :
    (positionsMask fs).testBit j = true ↔
      ∃ f ∈ fs, f.participates = true ∧ (tagPos f.tag - 1).toNat = j := by
  induction fs with
  | nil => simp [positionsMask]
  | cons f rest ih =>
    rw [positionsMask, Nat.testBit_or, Bool.or_eq_true, ih]
    constructor
    · rintro (h | ⟨g, hg, h⟩)
      · by_cases hp : f.participates = true
        · rw [if_pos hp, Nat.testBit_two_pow] at h
          exact ⟨f, List.mem_cons_self _ _, hp, of_decide_eq_true h⟩
        · rw [if_neg hp, Nat.zero_testBit] at h
          cases h
      · exact ⟨g, List.mem_cons_of_mem _ hg, h⟩
    · rintro ⟨g, hg, hp, hj⟩
      rcases List.mem_cons.1 hg with rfl | hg
      · left
        rw [if_pos hp, Nat.testBit_two_pow]
        exact decide_eq_true hj
      · exact Or.inr ⟨g, hg, hp, hj⟩

/-! ## The repository's tests, replayed on the embedding -/

/-- `TestBitMask`, lines 13-23: three `Set` calls give 1, 3 and 7. -/
theorem test_BitMask_set :
    (((BitMask.zero.Set 1).bind fun b => b.Set 2).bind fun b => b.Set 3) = .done (New 7) ∧
      (New 7).IsSet 1 = .done true ∧ (New 7).IsSet 2 = .done true ∧
      (New 7).IsSet 3 = .done true ∧ (New 7).IsSet 4 = .done false := by
  refine ⟨by decide, by decide, by decide, by decide, by decide⟩

/-- `TestBitMask`, lines 25-50: `Unset` of bits 1, 2, 3 gives 6, 4 and 0; bits 16 and 32
are set and cleared again. -/
theorem test_BitMask_unset :
    (New 7).Unset 1 = .done (New 6) ∧ (New 6).Unset 2 = .done (New 4) ∧
      (New 4).Unset 3 = .done (New 0) ∧ (New 0).IsSet 16 = .done false ∧
      (New 0).Set 16 = .done (New (2 ^ 15)) ∧ (New (2 ^ 15)).Unset 16 = .done (New 0) ∧
      (New 0).Set 32 = .done (New (2 ^ 31)) ∧ (New (2 ^ 31)).IsSet 32 = .done true ∧
      (New (2 ^ 31)).Unset 32 = .done (New 0) := by
  refine ⟨by decide, by decide, by decide, by decide, by decide, by decide, by decide,
    by decide, by decide⟩

/-- `TestMarshal/Error`: a map and a pointer to a map; the tags `"one"`, `"0"` and
`"65"`. -/
theorem test_Marshal_Error :
    Marshal (.other .Map) = .done (New 0, some (.plain .ErrNotStructPointerOrStruct)) ∧
      Marshal (.ptr (.other .Map)) =
        .done (New 0, some (.plain .ErrNotStructPointerOrStruct)) ∧
      Marshal (.struct [⟨"A", true, "one", .bool false⟩, ⟨"B", true, "two", .bool false⟩]) =
        .done (New 0, some (.wrapped .ErrInvalidTagValue "one")) ∧
      Marshal (.struct [⟨"A", true, "0", .bool false⟩, ⟨"B", true, "1", .bool false⟩]) =
        .done (New 0, some (.wrapped .ErrBitOutOfRange "0")) ∧
      Marshal (.struct [⟨"A", true, "1", .bool false⟩, ⟨"B", true, "65", .bool false⟩]) =
        .done (New 0, some (.wrapped .ErrBitOutOfRange "65")) := by
  refine ⟨by decide, by decide, by decide, by decide, by decide⟩

/-- `TestMarshal/EmptyTag`, `TestMarshal/Bool`, `TestMarshal/Int` and
`TestMarshal/Uint`, by value and through a pointer. -/
theorem test_Marshal_values :
    Marshal (.struct [⟨"A", true, "", .bool true⟩, ⟨"B", true, "2", .bool true⟩]) =
        .done (New 2, none) ∧
      Marshal (.struct [⟨"A", true, "1", .bool true⟩, ⟨"B", true, "2", .bool true⟩]) =
        .done (New 3, none) ∧
      Marshal (.ptr (.struct [⟨"A", true, "1", .bool true⟩, ⟨"B", true, "2", .bool false⟩])) =
        .done (New 1, none) ∧
      Marshal (.struct [⟨"A", true, "1", .int .Int 1⟩, ⟨"B", true, "2", .int .Int 0⟩]) =
        .done (New 1, none) ∧
      Marshal (.ptr (.struct [⟨"A", true, "1", .uint .Uint 1⟩, ⟨"B", true, "2", .uint .Uint 1⟩])) =
        .done (New 3, none) := by
  refine ⟨by decide, by decide, by decide, by decide, by decide⟩

/-- `TestUnmarshal/Error` and `TestUnmarshal/Nil`: a pointer to a map, the tags
`"one"` and `"0"`, the untyped nil and a nil `*int`. -/
theorem test_Unmarshal_Error :
    (Unmarshal (New 3) (.ptr (.other .Map))).ret =
        .done (some (.plain .ErrNotAStructPointer)) ∧
      (Unmarshal (New 3) (.ptr (.struct [⟨"A", true, "one", .bool false⟩,
        ⟨"B", true, "two", .bool false⟩]))).ret =
          .done (some (.wrapped .ErrInvalidTagValue "one")) ∧
      (Unmarshal (New 3) (.ptr (.struct [⟨"A", true, "0", .bool false⟩,
        ⟨"B", true, "1", .bool false⟩]))).ret =
          .done (some (.wrapped .ErrBitOutOfRange "0")) ∧
      (Unmarshal (New 3) .invalid).ret = .done (some (.plain .ErrNotAStructPointer)) ∧
      (Unmarshal (New 3) (.nilPtr (.basic .Int))).ret =
        .done (some (.plain .ErrNotAStructPointer)) := by
  refine ⟨by decide, by decide, by decide, by decide, by decide⟩

/-- `TestUnmarshal/EmptyTag`, `TestUnmarshal/Int/Struct/Partial` and
`TestUnmarshal/Uint/Struct/AllSet`. -/
theorem test_Unmarshal_values :
    Unmarshal (New 3) (.ptr (.struct [⟨"A", true, "", .bool false⟩,
        ⟨"B", true, "2", .bool false⟩])) =
        ⟨.ptr (.struct [⟨"A", true, "", .bool false⟩, ⟨"B", true, "2", .bool true⟩]),
          .done none⟩ ∧
      Unmarshal (New 1) (.ptr (.struct [⟨"A", true, "1", .int .Int 0⟩,
        ⟨"B", true, "2", .int .Int 0⟩])) =
        ⟨.ptr (.struct [⟨"A", true, "1", .int .Int 1⟩, ⟨"B", true, "2", .int .Int 0⟩]),
          .done none⟩ ∧
      Unmarshal (New 3) (.ptr (.struct [⟨"A", true, "1", .uint .Uint 0⟩,
        ⟨"B", true, "2", .uint .Uint 0⟩])) =
        ⟨.ptr (.struct [⟨"A", true, "1", .uint .Uint 1⟩, ⟨"B", true, "2", .uint .Uint 1⟩]),
          .done none⟩ := by
  refine ⟨by rfl, by rfl, by rfl⟩

/-! ## The claims -/

/-! ### C1 -/

/-- C1: on a struct value whose non-empty tags all parse to a position in `[1, 64]`,
`Marshal` returns a nil error and a mask in which, for every position `p` in
`[1, 64]`, `IsSet(p)` completes and is true exactly when some field tagged `p` is a
`bool` that is true or an `int`/`int8`..`int64`/`uint`/`uint8`..`uint64` that is not
zero; untagged fields and fields of other kinds set no bit. -/
theorem marshal_sets_exactly_the_truthy_tagged_positions (fs : List Field)
    (hw : wellTagged fs) :
    ∃ m, Marshal (.struct fs) = .done (m, none) ∧
      ∀ p : Int, 1 ≤ p → p ≤ 64 →
        ∃ s, m.IsSet p = .done s ∧
          (s = true ↔ ∃ f ∈ fs, f.tag ≠ "" ∧ tagPos f.tag = p ∧ truthy f.value = true) := by
  obtain ⟨m, hm, hbits⟩ := Marshal_wellTagged fs hw
  refine ⟨m, hm, fun p h1 h2 => ⟨_, IsSet_of_pos m h1 h2, ?_⟩⟩
  rw [hbits]
  constructor
  · rintro ⟨f, hf, ht, htr, hpos⟩
    have hv := hw f hf ht
    have := hv.2.1
    exact ⟨f, hf, ht, by omega, htr⟩
  · rintro ⟨f, hf, ht, hpos, htr⟩
    exact ⟨f, hf, ht, htr, by rw [hpos]⟩

/-- Witness for C1: a struct with a true `bool` at position 1, an untagged true
`bool`, a zero `int` at position 3 and a tagged string. -/
theorem marshal_sets_exactly_the_truthy_tagged_positions_witness :
    ∃ m, Marshal (.struct [⟨"A", true, "1", .bool true⟩, ⟨"B", true, "", .bool true⟩,
        ⟨"C", true, "3", .int .Int8 0⟩, ⟨"D", true, "64", .other .String "x"⟩]) = .done (m, none) ∧
      ∀ p : Int, 1 ≤ p → p ≤ 64 →
        ∃ s, m.IsSet p = .done s ∧
          (s = true ↔ ∃ f ∈ [(⟨"A", true, "1", .bool true⟩ : Field), ⟨"B", true, "", .bool true⟩,
            ⟨"C", true, "3", .int .Int8 0⟩, ⟨"D", true, "64", .other .String "x"⟩],
            f.tag ≠ "" ∧ tagPos f.tag = p ∧ truthy f.value = true) :=
  marshal_sets_exactly_the_truthy_tagged_positions _ (by unfold wellTagged; decide)

/-! ### C2 -/

/-- C2: when `Unmarshal` into a non-nil pointer to a struct returns nil, every field
that carries a tag whose bit is set in the mask holds `true` if it is a `bool`, `1`
if its kind is `int`, `int8` .. `int64`, and `1` if its kind is `uint`, `uint8` ..
`uint64`, whatever it held before. -/
theorem unmarshal_writes_true_or_one_for_set_bits (m : BitMask) (fs : List Field)
    (h : (Unmarshal m (.ptr (.struct fs))).ret = .done none) :
    ∃ gs, (Unmarshal m (.ptr (.struct fs))).dest = .ptr (.struct gs) ∧
      gs.length = fs.length ∧
      ∀ (i : Nat) (f g : Field), fs[i]? = some f → gs[i]? = some g →
        f.tag ≠ "" → m.IsSet (tagPos f.tag) = .done true →
          (f.value.Kind = .Bool → g.value = .bool true) ∧
          (∀ k n, f.value = .int k n → g.value = .int k 1) ∧
          (∀ k n, f.value = .uint k n → k ≠ .Uintptr → g.value = .uint k 1) := by
  rw [Unmarshal_ptr_struct] at h ⊢
  obtain ⟨-, hd⟩ := unmarshalFields_of_nil m fs h
  refine ⟨_, rfl, by rw [hd, List.length_map], ?_⟩
  intro i f g hf hg ht hs
  simp only [hd, List.getElem?_map, hf, Option.map_some', Option.some.injEq] at hg
  subst hg
  exact applyMask_value_of_set m f ht hs

/-- Witness for C2: mask 3 written over a struct that held `false`, `7` and `0`. -/
theorem unmarshal_writes_true_or_one_for_set_bits_witness :
    ∃ gs, (Unmarshal (New 3) (.ptr (.struct [⟨"A", true, "1", .bool false⟩,
        ⟨"B", true, "2", .int .Int32 7⟩, ⟨"C", true, "3", .uint .Uint 0⟩]))).dest
          = .ptr (.struct gs) ∧
      gs.length = [(⟨"A", true, "1", .bool false⟩ : Field),
        ⟨"B", true, "2", .int .Int32 7⟩, ⟨"C", true, "3", .uint .Uint 0⟩].length ∧
      ∀ (i : Nat) (f g : Field), [(⟨"A", true, "1", .bool false⟩ : Field),
        ⟨"B", true, "2", .int .Int32 7⟩, ⟨"C", true, "3", .uint .Uint 0⟩][i]? = some f →
        gs[i]? = some g →
        f.tag ≠ "" → (New 3).IsSet (tagPos f.tag) = .done true →
          (f.value.Kind = .Bool → g.value = .bool true) ∧
          (∀ k n, f.value = .int k n → g.value = .int k 1) ∧
          (∀ k n, f.value = .uint k n → k ≠ .Uintptr → g.value = .uint k 1) :=
  unmarshal_writes_true_or_one_for_set_bits (New 3) _ (by decide)

/-! ### C3 -/

/-- C3, as the claim states it, fails.  An unexported `bool` tagged `"1"` and holding
`true` is marshalled to mask 1, and `Unmarshal` of that mask into a zero-valued
struct of the same type panics instead of succeeding.  A struct whose only `bool`
field is validly tagged and which also has a string field tagged `"x"` is not
marshalled at all. -/
theorem roundtrip_breaks_on_unexported_field_and_on_foreign_bad_tag :
    Marshal (.struct [⟨"a", false, "1", .bool true⟩]) = .done (New 1, none) ∧
      (Unmarshal (New 1) (.ptr (.struct [Field.fresh ⟨"a", false, "1", .bool true⟩]))).ret =
        .panicked "reflect: reflect.Value.SetBool using value obtained using unexported field" ∧
      Marshal (.struct [⟨"A", true, "1", .bool true⟩, ⟨"S", true, "x", .other .String "s"⟩]) =
        .done (New 1, some (.wrapped .ErrInvalidTagValue "x")) := by
  refine ⟨by decide, by decide, by decide⟩

/-- C3, amended: round trip.  For every struct value whose non-empty tags are all
valid positions and whose tagged `bool`/`int*`/`uint*` fields are exported and carry
pairwise distinct positions, `Marshal` succeeds with a mask `m`, and `Unmarshal` of
`m` into a zero-valued struct of the same type succeeds and leaves, in each tagged
`bool`/`int*`/`uint*` field, `true`/`1` when the original field was true/non-zero and
the zero value when it was false/zero. -/
theorem marshal_then_unmarshal_reproduces_truthiness (fs : List Field)
    (hw : wellTagged fs)
    (hx : ∀ f ∈ fs, f.participates = true → f.exported = true)
    (hd : ∀ (i j : Nat) (f g : Field), fs[i]? = some f → fs[j]? = some g →
      f.participates = true → g.participates = true → tagPos f.tag = tagPos g.tag → i = j) :
    ∃ m gs, Marshal (.struct fs) = .done (m, none) ∧
      Unmarshal m (.ptr (.struct (fs.map Field.fresh))) = ⟨.ptr (.struct gs), .done none⟩ ∧
      gs.length = fs.length ∧
      ∀ (i : Nat) (f g : Field), fs[i]? = some f → gs[i]? = some g →
        f.participates = true →
          g.value = if truthy f.value = true then oneOf f.value else zeroOf f.value := by
  obtain ⟨m, hm, hbits⟩ := Marshal_wellTagged fs hw
  have hwf : wellTagged (fs.map Field.fresh) := by
    intro g hg
    obtain ⟨f, hf, rfl⟩ := List.mem_map.1 hg
    exact hw f hf
  have hxf : ∀ g ∈ fs.map Field.fresh, g.participates = true →
      m.IsSet (tagPos g.tag) = .done true → g.exported = true := by
    intro g hg hp _
    obtain ⟨f, hf, rfl⟩ := List.mem_map.1 hg
    rw [fresh_participates] at hp
    exact hx f hf hp
  refine ⟨m, (fs.map Field.fresh).map (applyMask m), hm, ?_, by simp, ?_⟩
  · rw [Unmarshal_ptr_struct, unmarshalFields_wellTagged m _ hwf hxf]
  · intro i f g hf hg hp
    simp only [List.getElem?_map, hf, Option.map_some', Option.some.injEq] at hg
    subst hg
    have hmem : f ∈ fs := List.getElem?_mem hf
    have hpf := hp
    simp only [Field.participates, Bool.and_eq_true, decide_eq_true_eq] at hpf
    obtain ⟨ht, hk⟩ := hpf
    have hv := hw f hmem ht
    have hs := IsSet_of_pos m hv.2.1 hv.2.2
    have htag : (Field.fresh f).tag = f.tag := rfl
    by_cases htr : truthy f.value = true
    · have hbit : m.bits.testBit (tagPos f.tag - 1).toNat = true :=
        (hbits _).2 ⟨f, hmem, ht, htr, rfl⟩
      rw [if_pos htr, applyMask, if_pos ⟨by rw [fresh_participates]; exact hp,
        by rw [htag, hs, hbit]⟩]
      exact oneOf_zeroOf hk
    · have hbit : ¬ m.bits.testBit (tagPos f.tag - 1).toNat = true := by
        intro hst
        obtain ⟨g, hg, hgt, hgtr, hgpos⟩ := (hbits _).1 hst
        obtain ⟨j, hj⟩ := List.getElem?_of_mem hg
        have hgp : g.participates = true := by
          simp [Field.participates, hgt, participatingKind_of_truthy hgtr]
        have hgv := hw g hg hgt
        have hsame : tagPos f.tag = tagPos g.tag := by
          have := hv.2.1; have := hgv.2.1; omega
        have hij := hd i j f g hf hj hp hgp hsame
        subst hij
        rw [hf] at hj
        cases hj
        exact htr hgtr
      rw [if_neg htr, applyMask, if_neg]
      · rfl
      · rintro ⟨-, h⟩
        rw [htag, hs, Run.done.injEq] at h
        exact hbit h

/-- Witness for C3: `{A int "1"; B uint "2"; c string}` holding `{1, 0, "x"}`. -/
theorem marshal_then_unmarshal_reproduces_truthiness_witness :
    ∃ m gs, Marshal (.struct [⟨"A", true, "1", .int .Int 1⟩, ⟨"B", true, "2", .uint .Uint 0⟩,
        ⟨"c", false, "", .other .String "x"⟩]) = .done (m, none) ∧
      Unmarshal m (.ptr (.struct ([(⟨"A", true, "1", .int .Int 1⟩ : Field),
        ⟨"B", true, "2", .uint .Uint 0⟩, ⟨"c", false, "", .other .String "x"⟩].map
          Field.fresh))) = ⟨.ptr (.struct gs), .done none⟩ ∧
      gs.length = [(⟨"A", true, "1", .int .Int 1⟩ : Field), ⟨"B", true, "2", .uint .Uint 0⟩,
        ⟨"c", false, "", .other .String "x"⟩].length ∧
      ∀ (i : Nat) (f g : Field), [(⟨"A", true, "1", .int .Int 1⟩ : Field),
        ⟨"B", true, "2", .uint .Uint 0⟩, ⟨"c", false, "", .other .String "x"⟩][i]? = some f →
        gs[i]? = some g → f.participates = true →
          g.value = if truthy f.value = true then oneOf f.value else zeroOf f.value :=
  marshal_then_unmarshal_reproduces_truthiness _ (by unfold wellTagged; decide) (by decide)
    (by
      intro i j f g hf hg hpf hpg hpos
      match i, j with
      | 0, 0 => rfl
      | 1, 1 => rfl
      | 0, 1 =>
        simp only [List.getElem?_cons_zero, List.getElem?_cons_succ, Option.some.injEq] at hf hg
        subst hf; subst hg; revert hpos; decide
      | 1, 0 =>
        simp only [List.getElem?_cons_zero, List.getElem?_cons_succ, Option.some.injEq] at hf hg
        subst hf; subst hg; revert hpos; decide
      | 2, _ =>
        simp only [List.getElem?_cons_zero, List.getElem?_cons_succ, Option.some.injEq] at hf
        subst hf; exact absurd hpf (by decide)
      | _, 2 =>
        simp only [List.getElem?_cons_zero, List.getElem?_cons_succ, Option.some.injEq] at hg
        subst hg; exact absurd hpg (by decide)
      | i + 3, _ => simp at hf
      | _, j + 3 => simp at hg)

/-! ### C4 -/

/-- C4: `Unmarshal` never clears a field and never touches one that does not take
part: however the call ends, every field that is untagged or empty-tagged, every
field of a kind other than `bool`, `int`, `int8` .. `int64`, `uint`, `uint8` ..
`uint64`, and every tagged field whose bit is not set in the mask holds exactly the
value it held before. -/
theorem unmarshal_leaves_other_fields_unchanged (m : BitMask) (fs : List Field) :
    ∃ gs, (Unmarshal m (.ptr (.struct fs))).dest = .ptr (.struct gs) ∧
      gs.length = fs.length ∧
      ∀ (i : Nat) (f g : Field), fs[i]? = some f → gs[i]? = some g →
        (f.tag = "" ∨ participatingKind f.value.Kind = false ∨
          m.IsSet (tagPos f.tag) ≠ .done true) → g = f := by
  rw [Unmarshal_ptr_struct]
  have hrel := unmarshalFields_rel m fs
  refine ⟨_, rfl, hrel.length_eq.symm, ?_⟩
  intro i f g hf hg hcond
  rcases forall₂_getElem? hrel i f g hf hg with h | h
  · exact h
  · rw [h, applyMask_eq_self m f hcond]

/-- Witness for C4: mask 1 over a struct that already holds values; only `A`, whose
bit is set, may change. -/
theorem unmarshal_leaves_other_fields_unchanged_witness :
    ∃ gs, (Unmarshal (New 1) (.ptr (.struct [⟨"A", true, "1", .bool false⟩,
        ⟨"B", true, "2", .int .Int 9⟩, ⟨"C", true, "", .bool true⟩,
        ⟨"D", true, "1", .other .String "x"⟩]))).dest = .ptr (.struct gs) ∧
      gs.length = [(⟨"A", true, "1", .bool false⟩ : Field), ⟨"B", true, "2", .int .Int 9⟩,
        ⟨"C", true, "", .bool true⟩, ⟨"D", true, "1", .other .String "x"⟩].length ∧
      ∀ (i : Nat) (f g : Field), [(⟨"A", true, "1", .bool false⟩ : Field),
        ⟨"B", true, "2", .int .Int 9⟩, ⟨"C", true, "", .bool true⟩,
        ⟨"D", true, "1", .other .String "x"⟩][i]? = some f → gs[i]? = some g →
        (f.tag = "" ∨ participatingKind f.value.Kind = false ∨
          (New 1).IsSet (tagPos f.tag) ≠ .done true) → g = f :=
  unmarshal_leaves_other_fields_unchanged (New 1) _

/-! ### C5 -/

/-- C5: the error `Marshal` returns on a struct value is decided by the first field,
in declaration order, whose non-empty tag is not a valid position.  With no such
field the error is nil; when that field's tag does not parse as a base-10 signed
64-bit integer the error is `ErrInvalidTagValue`; when it parses to a value below 1
or above 64 the error is `ErrBitOutOfRange`; both errors carry the field's raw tag
text. -/
theorem marshal_error_is_decided_by_the_first_bad_tag (fs : List Field) :
    (wellTagged fs → ∃ m, Marshal (.struct fs) = .done (m, none)) ∧
      ∀ pre f post, fs = pre ++ f :: post → wellTagged pre → f.tag ≠ "" →
        ((ParseInt f.tag).2 ≠ none →
          ∃ m, Marshal (.struct fs) = .done (m, some (.wrapped .ErrInvalidTagValue f.tag))) ∧
        ((ParseInt f.tag).2 = none → (tagPos f.tag < 1 ∨ tagPos f.tag > 64) →
          ∃ m, Marshal (.struct fs) = .done (m, some (.wrapped .ErrBitOutOfRange f.tag))) := by
  refine ⟨fun hw => ?_, ?_⟩
  · obtain ⟨m, hm, -⟩ := marshalFields_wellTagged fs hw BitMask.zero
    exact ⟨m, by rw [Marshal_struct]; exact hm⟩
  · intro pre f post hfs hw ht
    subst hfs
    refine ⟨fun he => ?_, fun he hr => ?_⟩
    · obtain ⟨c, -, hc⟩ := marshalFields_split post hw ht (Or.inl ⟨he, rfl⟩) BitMask.zero
      exact ⟨c, by rw [Marshal_struct]; exact hc⟩
    · obtain ⟨c, -, hc⟩ := marshalFields_split post hw ht (Or.inr ⟨he, hr, rfl⟩) BitMask.zero
      exact ⟨c, by rw [Marshal_struct]; exact hc⟩

/-- Witness for C5: in `{A "1"; B "65"; C "one"}` the first bad tag is `"65"`, and
`Marshal` returns `ErrBitOutOfRange` carrying `"65"`. -/
theorem marshal_error_is_decided_by_the_first_bad_tag_witness :
    ∃ m, Marshal (.struct [⟨"A", true, "1", .bool true⟩, ⟨"B", true, "65", .bool true⟩,
        ⟨"C", true, "one", .bool true⟩]) = .done (m, some (.wrapped .ErrBitOutOfRange "65")) :=
  ((marshal_error_is_decided_by_the_first_bad_tag [⟨"A", true, "1", .bool true⟩,
    ⟨"B", true, "65", .bool true⟩, ⟨"C", true, "one", .bool true⟩]).2
      [⟨"A", true, "1", .bool true⟩] ⟨"B", true, "65", .bool true⟩
      [⟨"C", true, "one", .bool true⟩] rfl (by unfold wellTagged; decide) (by decide)).2
    (by decide) (by decide)

/-! ### C6 -/

/-- C6, as the claim states it, fails: on a struct with an unexported `bool` tagged
`"1"`, `Marshal` returns a nil error while `Unmarshal` of mask 1 into a pointer to
the same struct does not return at all: `reflect` panics on the write. -/
theorem unmarshal_panics_where_marshal_returns_nil :
    Marshal (.struct [⟨"a", false, "1", .bool false⟩]) = .done (New 0, none) ∧
      (Unmarshal (New 1) (.ptr (.struct [⟨"a", false, "1", .bool false⟩]))).ret =
        .panicked "reflect: reflect.Value.SetBool using value obtained using unexported field" := by
  constructor <;> decide

/-- C6, amended: for every struct value whose tagged `bool`/`int*`/`uint*` fields are
all exported, and every mask, `Marshal` of the struct and `Unmarshal` into a pointer
to it return the same error: nil together, or the same error kind with the same
offending tag text. -/
theorem marshal_and_unmarshal_return_the_same_error (m : BitMask) (fs : List Field)
    (hx : ∀ f ∈ fs, f.participates = true → f.exported = true) :
    ∃ mask e, Marshal (.struct fs) = .done (mask, e) ∧
      (Unmarshal m (.ptr (.struct fs))).ret = .done e := by
  rw [Marshal_struct, Unmarshal_ptr_struct]
  cases hret : (unmarshalFields m fs).ret with
  | panicked msg =>
    obtain ⟨f, hf, hp, -, he⟩ := unmarshalFields_of_panic m fs msg hret
    rw [hx f hf hp] at he
    cases he
  | done e =>
    cases e with
    | none =>
      obtain ⟨hw, -⟩ := unmarshalFields_of_nil m fs hret
      obtain ⟨mask, hm, -⟩ := marshalFields_wellTagged fs hw BitMask.zero
      exact ⟨mask, none, hm, rfl⟩
    | some e =>
      obtain ⟨pre, f, post, hfs, hpre, -, ht, he⟩ := unmarshalFields_of_error m fs e hret
      have hw : wellTagged pre :=
        (unmarshalFields_of_nil m pre (by rw [hpre])).1
      obtain ⟨c, -, hc⟩ := marshalFields_split post hw ht he BitMask.zero
      exact ⟨c, some e, by rw [hfs]; exact hc, rfl⟩

/-- Witness for C6: a struct whose second field carries the tag `"65"`. -/
theorem marshal_and_unmarshal_return_the_same_error_witness :
    ∃ mask e, Marshal (.struct [⟨"A", true, "1", .bool true⟩, ⟨"B", true, "65", .bool false⟩,
        ⟨"c", false, "", .int .Int 5⟩]) = .done (mask, e) ∧
      (Unmarshal (New 3) (.ptr (.struct [⟨"A", true, "1", .bool true⟩,
        ⟨"B", true, "65", .bool false⟩, ⟨"c", false, "", .int .Int 5⟩]))).ret = .done e :=
  marshal_and_unmarshal_return_the_same_error (New 3) _ (by decide)

/-! ### C7 -/

/-- C7, as the claim states it, fails.  A struct in which a field tagged `"0"` comes
before a field tagged `"one"` carries a non-numeric tag, yet both directions fail
with `ErrBitOutOfRange`, which is not `ErrInvalidTagValue`.  And in a struct where an
unexported `bool` tagged `"1"` comes before the field tagged `"one"`, `Unmarshal` of
mask 1 does not fail with an error: it panics on the write. -/
theorem bad_tag_after_another_bad_tag_is_not_reported :
    (ParseInt "one").2 ≠ none ∧
      Marshal (.struct [⟨"A", true, "0", .bool false⟩, ⟨"B", true, "one", .bool false⟩]) =
        .done (New 0, some (.wrapped .ErrBitOutOfRange "0")) ∧
      (Unmarshal (New 3) (.ptr (.struct [⟨"A", true, "0", .bool false⟩,
        ⟨"B", true, "one", .bool false⟩]))).ret = .done (some (.wrapped .ErrBitOutOfRange "0")) ∧
      (Error.wrapped .ErrBitOutOfRange "0").Is .ErrInvalidTagValue = false ∧
      (Unmarshal (New 1) (.ptr (.struct [⟨"a", false, "1", .bool false⟩,
        ⟨"B", true, "one", .bool false⟩]))).ret =
        .panicked "reflect: reflect.Value.SetBool using value obtained using unexported field" := by
  refine ⟨by decide, by decide, by decide, by decide, by decide⟩

/-- C7, amended: the first bad tag, in declaration order, triggers its own error kind
in both directions.  For every struct in which the first field whose non-empty tag
is not a valid position carries a tag that does not parse (such as `"one"`),
`Marshal` of any value fails with `ErrInvalidTagValue`, and so does `Unmarshal` of any
mask into a pointer to it when the tagged `bool`/`int*`/`uint*` fields before that
field are exported; when that first bad tag parses to an integer outside `[1, 64]`
(such as `"0"` or `"65"`), `Marshal` fails with `ErrBitOutOfRange`, and so does
`Unmarshal` under the same condition.  The condition on exported fields bears on
`Unmarshal` only. -/
theorem first_bad_tag_triggers_its_error_in_both_directions (pre post : List Field)
    (f : Field) (m : BitMask) (hw : wellTagged pre) (ht : f.tag ≠ "") :
    ((ParseInt f.tag).2 ≠ none →
        (∃ mask, Marshal (.struct (pre ++ f :: post)) =
          .done (mask, some (.wrapped .ErrInvalidTagValue f.tag))) ∧
        ((∀ g ∈ pre, g.participates = true → g.exported = true) →
          (Unmarshal m (.ptr (.struct (pre ++ f :: post)))).ret =
            .done (some (.wrapped .ErrInvalidTagValue f.tag)))) ∧
      ((ParseInt f.tag).2 = none → (tagPos f.tag < 1 ∨ tagPos f.tag > 64) →
        (∃ mask, Marshal (.struct (pre ++ f :: post)) =
          .done (mask, some (.wrapped .ErrBitOutOfRange f.tag))) ∧
        ((∀ g ∈ pre, g.participates = true → g.exported = true) →
          (Unmarshal m (.ptr (.struct (pre ++ f :: post)))).ret =
            .done (some (.wrapped .ErrBitOutOfRange f.tag)))) := by
  have hx2 : (∀ g ∈ pre, g.participates = true → g.exported = true) →
      ∀ g ∈ pre, g.participates = true → m.IsSet (tagPos g.tag) = .done true →
        g.exported = true := fun hx g hg hp _ => hx g hg hp
  refine ⟨fun he => ?_, fun he hr => ?_⟩
  · have hte : isTagError f.tag (.wrapped .ErrInvalidTagValue f.tag) := Or.inl ⟨he, rfl⟩
    obtain ⟨c, -, hc⟩ := marshalFields_split post hw ht hte BitMask.zero
    exact ⟨⟨c, by rw [Marshal_struct]; exact hc⟩, fun hx =>
      by rw [Unmarshal_ptr_struct, unmarshalFields_split m post hw (hx2 hx) ht hte]⟩
  · have hte : isTagError f.tag (.wrapped .ErrBitOutOfRange f.tag) := Or.inr ⟨he, hr, rfl⟩
    obtain ⟨c, -, hc⟩ := marshalFields_split post hw ht hte BitMask.zero
    exact ⟨⟨c, by rw [Marshal_struct]; exact hc⟩, fun hx =>
      by rw [Unmarshal_ptr_struct, unmarshalFields_split m post hw (hx2 hx) ht hte]⟩

/-- Witness for C7: the tag `"one"` on the second field, before a field tagged `"0"`.
After an unexported `bool` tagged `"1"`, `Marshal` fails with `ErrInvalidTagValue`;
after an exported one, `Unmarshal` of mask 3 does too. -/
theorem first_bad_tag_triggers_its_error_in_both_directions_witness :
    (∃ mask, Marshal (.struct ([⟨"a", false, "1", .bool true⟩] ++
        (⟨"B", true, "one", .bool false⟩ : Field) :: [⟨"C", true, "0", .bool false⟩])) =
          .done (mask, some (.wrapped .ErrInvalidTagValue "one"))) ∧
      (Unmarshal (New 3) (.ptr (.struct ([⟨"A", true, "1", .bool true⟩] ++
        (⟨"B", true, "one", .bool false⟩ : Field) :: [⟨"C", true, "0", .bool false⟩])))).ret =
          .done (some (.wrapped .ErrInvalidTagValue "one")) :=
  ⟨((first_bad_tag_triggers_its_error_in_both_directions [⟨"a", false, "1", .bool true⟩]
      [⟨"C", true, "0", .bool false⟩] ⟨"B", true, "one", .bool false⟩ (New 3)
      (by unfold wellTagged; decide) (by decide)).1 (by decide)).1,
    ((first_bad_tag_triggers_its_error_in_both_directions [⟨"A", true, "1", .bool true⟩]
      [⟨"C", true, "0", .bool false⟩] ⟨"B", true, "one", .bool false⟩ (New 3)
      (by unfold wellTagged; decide) (by decide)).1 (by decide)).2 (by decide)⟩

/-! ### C8 -/

/-- C8, as the claim states it, fails: `Unmarshal` of mask 3 into
`{A bool "1"; B bool "65"}` returns `ErrBitOutOfRange` for `B` after it has written
`true` into `A`. -/
theorem unmarshal_error_after_a_write :
    (Unmarshal (New 3) (.ptr (.struct [⟨"A", true, "1", .bool false⟩,
        ⟨"B", true, "65", .bool false⟩]))).ret = .done (some (.wrapped .ErrBitOutOfRange "65")) ∧
      (Unmarshal (New 3) (.ptr (.struct [⟨"A", true, "1", .bool false⟩,
        ⟨"B", true, "65", .bool false⟩]))).dest =
          .ptr (.struct [⟨"A", true, "1", .bool true⟩, ⟨"B", true, "65", .bool false⟩]) ∧
      (⟨"A", true, "1", .bool true⟩ : Field) ≠ ⟨"A", true, "1", .bool false⟩ := by
  refine ⟨by decide, by rfl, by decide⟩

/-- C8, amended: when `Unmarshal` returns an error from the field walk, the field
whose tag is in error and every field after it hold the value they held before the
call; the fields before it are as a call that returns nil on them leaves them. -/
theorem unmarshal_error_keeps_the_bad_field_and_later_fields (m : BitMask)
    (fs : List Field) (e : Error)
    (h : (Unmarshal m (.ptr (.struct fs))).ret = .done (some e)) :
    ∃ pre f post gs, fs = pre ++ f :: post ∧ f.tag ≠ "" ∧ isTagError f.tag e ∧
      Unmarshal m (.ptr (.struct pre)) = ⟨.ptr (.struct gs), .done none⟩ ∧
      (Unmarshal m (.ptr (.struct fs))).dest = .ptr (.struct (gs ++ f :: post)) := by
  rw [Unmarshal_ptr_struct] at h
  obtain ⟨pre, f, post, hfs, hpre, hdest, ht, he⟩ := unmarshalFields_of_error m fs e h
  refine ⟨pre, f, post, pre.map (applyMask m), hfs, ht, he, ?_, ?_⟩
  · rw [Unmarshal_ptr_struct, hpre]
  · rw [Unmarshal_ptr_struct, hdest]

/-- Witness for C8: mask 3 into `{A bool "1"; B bool "65"; C bool "2"}`. -/
theorem unmarshal_error_keeps_the_bad_field_and_later_fields_witness :
    ∃ pre f post gs, [(⟨"A", true, "1", .bool false⟩ : Field), ⟨"B", true, "65", .bool false⟩,
        ⟨"C", true, "2", .bool false⟩] = pre ++ f :: post ∧ f.tag ≠ "" ∧
      isTagError f.tag (.wrapped .ErrBitOutOfRange "65") ∧
      Unmarshal (New 3) (.ptr (.struct pre)) = ⟨.ptr (.struct gs), .done none⟩ ∧
      (Unmarshal (New 3) (.ptr (.struct [⟨"A", true, "1", .bool false⟩,
        ⟨"B", true, "65", .bool false⟩, ⟨"C", true, "2", .bool false⟩]))).dest =
          .ptr (.struct (gs ++ f :: post)) :=
  unmarshal_error_keeps_the_bad_field_and_later_fields (New 3) _ _ (by decide)

/-! ### C9 -/

/-- C9, as the claim states it, fails: `Marshal` of `{A: true}` in
`{A bool "1"; B bool "65"}` returns `ErrBitOutOfRange` together with mask 1, the
bit of `A` that it had set before it met `B`. -/
theorem marshal_error_with_a_nonzero_mask :
    Marshal (.struct [⟨"A", true, "1", .bool true⟩, ⟨"B", true, "65", .bool false⟩]) =
        .done (New 1, some (.wrapped .ErrBitOutOfRange "65")) ∧
      New 1 ≠ New 0 ∧ (New 1).toInt = 1 := by
  refine ⟨by decide, by decide, by decide⟩

/-- C9, amended: when `Marshal` returns `ErrNotStructPointerOrStruct` the mask
returned with it is the zero mask; when it returns `ErrInvalidTagValue` or
`ErrBitOutOfRange` the mask returned with it is the mask `Marshal` returns, with a
nil error, for the fields before the field whose tag is in error. -/
theorem marshal_error_returns_the_mask_of_the_earlier_fields (v : Value) (m : BitMask)
    (e : Error) (h : Marshal v = .done (m, some e)) :
    (e = .plain .ErrNotStructPointerOrStruct ∧ m = New 0) ∨
      ∃ pre f post, reachedStruct v = some (pre ++ f :: post) ∧ wellTagged pre ∧
        f.tag ≠ "" ∧ isTagError f.tag e ∧ Marshal (.struct pre) = .done (m, none) := by
  induction v with
  | invalid => simp [Marshal] at h
  | nilPtr t => simp [Marshal] at h
  | ptr elem ih =>
    simp only [Marshal] at h
    simp only [reachedStruct]
    exact ih h
  | iface dyn ih =>
    simp only [Marshal] at h
    simp only [reachedStruct]
    exact ih h
  | struct fs =>
    right
    rw [Marshal_struct] at h
    obtain ⟨pre, f, post, hfs, hw, hm, ht, he⟩ := marshalFields_of_error fs _ m e h
    exact ⟨pre, f, post, by rw [hfs]; rfl, hw, ht, he, by rw [Marshal_struct]; exact hm⟩
  | other k =>
    left
    simp only [Marshal, Run.done.injEq, Prod.mk.injEq, Option.some.injEq] at h
    exact ⟨h.2.symm, by rw [← h.1]; decide⟩

/-- Witness for C9: a pointer to `{A: true}` in `{A bool "1"; B bool "x"}`. -/
theorem marshal_error_returns_the_mask_of_the_earlier_fields_witness :
    ((Error.wrapped .ErrInvalidTagValue "x") = .plain .ErrNotStructPointerOrStruct ∧
        New 1 = New 0) ∨
      ∃ pre f post, reachedStruct (.ptr (.struct [⟨"A", true, "1", .bool true⟩,
          ⟨"B", true, "x", .bool false⟩])) = some (pre ++ f :: post) ∧ wellTagged pre ∧
        f.tag ≠ "" ∧ isTagError f.tag (.wrapped .ErrInvalidTagValue "x") ∧
        Marshal (.struct pre) = .done (New 1, none) :=
  marshal_error_returns_the_mask_of_the_earlier_fields
    (.ptr (.struct [⟨"A", true, "1", .bool true⟩, ⟨"B", true, "x", .bool false⟩]))
    (New 1) (.wrapped .ErrInvalidTagValue "x") (by decide)

/-! ### C10 -/

/-- C10: `Marshal` of an untyped nil, of a nil pointer of any pointee type, and of a
chain of pointers of any length that ends at a nil pointer returns the mask 0 and a
nil error. -/
theorem marshal_of_nil_is_mask_zero_and_no_error :
    Marshal .invalid = .done (New 0, none) ∧
      (∀ t : GoType, Marshal (.nilPtr t) = .done (New 0, none)) ∧
      ∀ (n : Nat) (t : GoType), Marshal (ptrChain n (.nilPtr t)) = .done (New 0, none) := by
  have hz : BitMask.zero = New 0 := by decide
  refine ⟨by simp only [Marshal, hz], fun t => by simp only [Marshal, hz], fun n t => ?_⟩
  induction n with
  | zero => simp only [ptrChain, Marshal, hz]
  | succ n ih => simp only [ptrChain, Marshal]; exact ih

/-! ### C11 -/

/-- C11: `Unmarshal` returns `ErrNotAStructPointer`, and writes nothing, exactly when
the destination is not a chain of one or more non-nil pointers ending at a struct.
That is so for an untyped nil, a nil pointer, a struct passed by value, any other
non-pointer value, a pointer to a non-struct such as a map, and a pointer to a nil
pointer.  For a pointer to a pointer to a struct the call does what it does for the
inner pointer. -/
theorem unmarshal_rejects_exactly_what_is_not_a_pointer_chain_to_a_struct (m : BitMask) :
    (∀ v, structPointerChain v = false →
        Unmarshal m v = ⟨v, .done (some (.plain .ErrNotAStructPointer))⟩) ∧
      (∀ v, structPointerChain v = true → ∀ e, (Unmarshal m v).ret = .done (some e) →
        e.Is .ErrNotAStructPointer = false) ∧
      structPointerChain .invalid = false ∧
      (∀ t, structPointerChain (.nilPtr t) = false) ∧
      (∀ fs, structPointerChain (.struct fs) = false) ∧
      (∀ k, structPointerChain (.other k) = false) ∧
      (∀ k, structPointerChain (.ptr (.other k)) = false) ∧
      (∀ t, structPointerChain (.ptr (.nilPtr t)) = false) ∧
      ∀ fs, structPointerChain (.ptr (.ptr (.struct fs))) = true ∧
        Unmarshal m (.ptr (.ptr (.struct fs))) =
          ⟨.ptr (Unmarshal m (.ptr (.struct fs))).dest, (Unmarshal m (.ptr (.struct fs))).ret⟩ := by
  refine ⟨Unmarshal_of_not_chain m, Unmarshal_of_chain m, rfl, fun _ => rfl, fun _ => rfl,
    fun _ => rfl, fun _ => rfl, fun _ => rfl, fun fs => ⟨rfl, ?_⟩⟩
  simp only [Unmarshal]

/-! ### C12 -/

/-- C12: `Marshal` of a non-nil value that is neither a struct nor a pointer, such as
a map, and of a non-nil pointer to such a value, fails with
`ErrNotStructPointerOrStruct`; so it does through any number of non-nil pointers. -/
theorem marshal_rejects_what_is_neither_struct_nor_pointer (k : Kind) :
    Marshal (.other k) = .done (New 0, some (.plain .ErrNotStructPointerOrStruct)) ∧
      Marshal (.ptr (.other k)) = .done (New 0, some (.plain .ErrNotStructPointerOrStruct)) ∧
      (∀ n, Marshal (ptrChain n (.other k)) =
        .done (New 0, some (.plain .ErrNotStructPointerOrStruct))) ∧
      (Error.plain .ErrNotStructPointerOrStruct).Is .ErrNotStructPointerOrStruct = true := by
  have hz : BitMask.zero = New 0 := by decide
  refine ⟨by simp only [Marshal, hz], by simp only [Marshal, hz], fun n => ?_, by decide⟩
  induction n with
  | zero => simp only [ptrChain, Marshal, hz]
  | succ n ih => simp only [ptrChain, Marshal]; exact ih

/-! ### C13 -/

/-- C13: pointer transparency of `Marshal`: for every struct value, `Marshal` of a
pointer to it returns exactly the mask and the error that `Marshal` of the value
returns. -/
theorem marshal_of_a_pointer_is_marshal_of_the_struct (fs : List Field) :
    ∃ m e, Marshal (.struct fs) = .done (m, e) ∧ Marshal (.ptr (.struct fs)) = .done (m, e) := by
  obtain ⟨m, e, h⟩ := marshalFields_returns fs BitMask.zero
  exact ⟨m, e, by rw [Marshal_struct]; exact h, by simp only [Marshal]; exact h⟩

/-! ### C14 -/

/-- C14: for every `i` in `[1, 64]`, `Set(i)` on `New(0)` completes, and in the result
`IsSet(i)` is true and `IsSet(j)` is false for every other `j` in `[1, 64]`; the
integer value of the mask is `2^(i-1)` wrapped into the signed 64-bit range, which
is `2^(i-1)` for `i < 64` and `-2^63`, the sign bit, for `i = 64`. -/
theorem set_on_the_zero_mask_sets_exactly_bit_i (i : Int) (h1 : 1 ≤ i) (h2 : i ≤ 64) :
    ∃ b, (New 0).Set i = .done b ∧ b.IsSet i = .done true ∧
      (∀ j : Int, 1 ≤ j → j ≤ 64 → j ≠ i → b.IsSet j = .done false) ∧
      b.toInt = wrapInt (2 ^ (i - 1).toNat) ∧
      (i < 64 → b.toInt = 2 ^ (i - 1).toNat) ∧ (i = 64 → b.toInt = -2 ^ 63) := by
  obtain ⟨b, hb, hbits⟩ := Set_of_pos (New 0) h1 h2
  have hz : (New 0).bits = 0 := by decide
  rw [hz, Nat.zero_or] at hbits
  obtain ⟨hw, hlt, heq⟩ := toInt_two_pow (b := b) (k := (i - 1).toNat) (by omega) hbits
  refine ⟨b, hb, ?_, ?_, hw, fun h => hlt (by omega), fun h => heq (by omega)⟩
  · rw [IsSet_of_pos b h1 h2, hbits, Nat.testBit_two_pow_self]
  · intro j hj1 hj2 hne
    have hij : (i - 1).toNat ≠ (j - 1).toNat := by omega
    rw [IsSet_of_pos b hj1 hj2, hbits, Nat.testBit_two_pow, decide_eq_false hij]

/-- Witness for C14: `i = 64`, the sign bit. -/
theorem set_on_the_zero_mask_sets_exactly_bit_i_witness :
    ∃ b, (New 0).Set 64 = .done b ∧ b.IsSet 64 = .done true ∧
      (∀ j : Int, 1 ≤ j → j ≤ 64 → j ≠ 64 → b.IsSet j = .done false) ∧
      b.toInt = wrapInt (2 ^ ((64 : Int) - 1).toNat) ∧
      ((64 : Int) < 64 → b.toInt = 2 ^ ((64 : Int) - 1).toNat) ∧
      ((64 : Int) = 64 → b.toInt = -2 ^ 63) :=
  set_on_the_zero_mask_sets_exactly_bit_i 64 (by decide) (by decide)

/-! ### C15 -/

/-- C15, as the claim states it, fails: on the mask 1, whose bit 1 is already set,
`Set(1)` followed by `Unset(1)` gives 0, not 1; and for `i = 0` there is no result
at all, `Set(0)` panics on the negative shift count. -/
theorem set_then_unset_clears_a_bit_that_was_set :
    ((New 1).Set 1).bind (fun c => c.Unset 1) = .done (New 0) ∧ New 0 ≠ New 1 ∧
      ((New 1).Set 0).bind (fun c => c.Unset 0) =
        .panicked "runtime error: negative shift amount" := by
  refine ⟨by decide, by decide, by decide⟩

/-- C15, amended: for every mask `b` and every `i` for which `IsSet(i)` completes and
is false on `b`, `Set(i)` followed by `Unset(i)` completes and restores the original
value of `b`. -/
theorem set_then_unset_restores_a_clear_bit (b : BitMask) (i : Int)
    (h : b.IsSet i = .done false) :
    (b.Set i).bind (fun c => c.Unset i) = .done b := by
  obtain ⟨k, hk, hlt, hclear⟩ := IsSet_done h
  have hz : b.bits &&& k = 0 := by simpa using hclear
  unfold BitMask.Set BitMask.Unset
  simp only [hk, Run.bind]
  exact congrArg Run.done (BitMask.ext_bits (or_and_complement b.isWord hlt hz))

/-- Witness for C15: bit 16 on the mask 5, as in `TestBitMask`. -/
theorem set_then_unset_restores_a_clear_bit_witness :
    ((New 5).Set 16).bind (fun c => c.Unset 16) = .done (New 5) :=
  set_then_unset_restores_a_clear_bit (New 5) 16 (by decide)

/-! ### C16 -/

/-- C16: for every mask `b` and every `i` in `[1, 64]`, `Unset(i)` completes; in the
result `IsSet(i)` is false and `IsSet(j)` is what it was in `b` for every other `j`
in `[1, 64]`; the new value is `b AND NOT 2^(i-1)` on the 64-bit word, bit by bit the
bits of `b` without bit `i - 1`; and on a bit that is already clear `Unset` leaves
`b` unchanged. -/
theorem unset_clears_exactly_bit_i (b : BitMask) (i : Int) (h1 : 1 ≤ i) (h2 : i ≤ 64) :
    ∃ c, b.Unset i = .done c ∧ c.IsSet i = .done false ∧
      (∀ j : Int, 1 ≤ j → j ≤ 64 → j ≠ i → c.IsSet j = b.IsSet j) ∧
      c.bits = b.bits &&& (2 ^ 64 - 1 - 2 ^ (i - 1).toNat) ∧
      (∀ j, c.bits.testBit j = (b.bits.testBit j && !decide ((i - 1).toNat = j))) ∧
      (b.IsSet i = .done false → c = b) := by
  obtain ⟨c, hc, hand, hbits⟩ := Unset_of_pos b h1 h2
  refine ⟨c, hc, ?_, ?_, hand, hbits, ?_⟩
  · rw [IsSet_of_pos c h1 h2, hbits]
    simp
  · intro j hj1 hj2 hne
    have hij : (i - 1).toNat ≠ (j - 1).toNat := by omega
    rw [IsSet_of_pos c hj1 hj2, IsSet_of_pos b hj1 hj2, hbits, decide_eq_false hij,
      Bool.not_false, Bool.and_true]
  · intro hclear
    rw [IsSet_of_pos b h1 h2, Run.done.injEq] at hclear
    apply BitMask.ext_bits
    apply Nat.eq_of_testBit_eq
    intro j
    rw [hbits]
    by_cases hj : (i - 1).toNat = j
    · rw [← hj, hclear]; rfl
    · rw [decide_eq_false hj, Bool.not_false, Bool.and_true]

/-- Witness for C16: `Unset(2)` on the mask 6, as in `TestBitMask`. -/
theorem unset_clears_exactly_bit_i_witness :
    ∃ c, (New 6).Unset 2 = .done c ∧ c.IsSet 2 = .done false ∧
      (∀ j : Int, 1 ≤ j → j ≤ 64 → j ≠ 2 → c.IsSet j = (New 6).IsSet j) ∧
      c.bits = (New 6).bits &&& (2 ^ 64 - 1 - 2 ^ ((2 : Int) - 1).toNat) ∧
      (∀ j, c.bits.testBit j =
        ((New 6).bits.testBit j && !decide (((2 : Int) - 1).toNat = j))) ∧
      ((New 6).IsSet 2 = .done false → c = New 6) :=
  unset_clears_exactly_bit_i (New 6) 2 (by decide) (by decide)

/-! ### C17 -/

/-- C17, as the claim states it, fails: a string field with the tag `"x"` is not
inert.  With it `Marshal` and `Unmarshal` fail with `ErrInvalidTagValue`, without it
they return nil; and when it comes first, `Unmarshal` of mask 1 no longer writes the
`bool` field after it. -/
theorem field_of_another_kind_with_a_bad_tag_is_not_inert :
    participatingKind (FieldValue.other .String "s").Kind = false ∧
      Marshal (.struct [⟨"S", true, "x", .other .String "s"⟩, ⟨"A", true, "1", .bool true⟩]) =
        .done (New 0, some (.wrapped .ErrInvalidTagValue "x")) ∧
      Marshal (.struct [⟨"A", true, "1", .bool true⟩]) = .done (New 1, none) ∧
      Unmarshal (New 1) (.ptr (.struct [⟨"S", true, "x", .other .String "s"⟩,
        ⟨"A", true, "1", .bool false⟩])) =
          ⟨.ptr (.struct [⟨"S", true, "x", .other .String "s"⟩, ⟨"A", true, "1", .bool false⟩]),
            .done (some (.wrapped .ErrInvalidTagValue "x"))⟩ ∧
      Unmarshal (New 1) (.ptr (.struct [⟨"A", true, "1", .bool false⟩])) =
        ⟨.ptr (.struct [⟨"A", true, "1", .bool true⟩]), .done none⟩ := by
  refine ⟨by decide, by decide, by decide, by rfl, by rfl⟩

/-- C17, amended: a field whose kind is none of `bool`, `int`/`int8`..`int64`,
`uint`/`uint8`..`uint64` is inert whatever its value when its tag is empty or a valid
position: removing such a field from the struct leaves the mask and error returned
by `Marshal`, the outcome of `Unmarshal` and its writes to the remaining fields
unchanged, and the field itself is left as it was. -/
theorem removing_an_inert_field_changes_nothing (pre post : List Field) (f : Field)
    (m : BitMask) (hk : participatingKind f.value.Kind = false)
    (ht : f.tag = "" ∨ validTag f.tag) :
    Marshal (.struct (pre ++ f :: post)) = Marshal (.struct (pre ++ post)) ∧
      (Unmarshal m (.ptr (.struct (pre ++ f :: post)))).ret =
        (Unmarshal m (.ptr (.struct (pre ++ post)))).ret ∧
      ∃ gpre gpost, gpre.length = pre.length ∧
        (Unmarshal m (.ptr (.struct (pre ++ post)))).dest = .ptr (.struct (gpre ++ gpost)) ∧
        (Unmarshal m (.ptr (.struct (pre ++ f :: post)))).dest =
          .ptr (.struct (gpre ++ f :: gpost)) := by
  refine ⟨?_, ?_, ?_⟩
  · rw [Marshal_struct, Marshal_struct, marshalFields_append, marshalFields_append]
    cases hpre : marshalFields pre BitMask.zero with
    | panicked msg => rfl
    | done r =>
      obtain ⟨c, e⟩ := r
      cases e with
      | none => exact marshalFields_cons_inert post c hk ht
      | some e => rfl
  · rw [Unmarshal_ptr_struct, Unmarshal_ptr_struct, unmarshalFields_append,
      unmarshalFields_append, unmarshalFields_cons_inert m post hk ht]
    cases (unmarshalFields m pre).ret with
    | panicked msg => rfl
    | done e => cases e <;> rfl
  · rw [Unmarshal_ptr_struct, Unmarshal_ptr_struct, unmarshalFields_append,
      unmarshalFields_append, unmarshalFields_cons_inert m post hk ht]
    cases (unmarshalFields m pre).ret with
    | panicked msg => exact ⟨_, post, unmarshalFields_length m pre, rfl, rfl⟩
    | done e =>
      cases e with
      | none => exact ⟨_, _, unmarshalFields_length m pre, rfl, rfl⟩
      | some e => exact ⟨_, post, unmarshalFields_length m pre, rfl, rfl⟩

/-- Witness for C17: a string field tagged `"1"` between two `bool` fields. -/
theorem removing_an_inert_field_changes_nothing_witness :
    Marshal (.struct ([⟨"A", true, "1", .bool true⟩] ++
        (⟨"S", true, "1", .other .String "s"⟩ : Field) :: [⟨"B", true, "2", .bool true⟩])) =
      Marshal (.struct ([⟨"A", true, "1", .bool true⟩] ++ [⟨"B", true, "2", .bool true⟩])) ∧
      (Unmarshal (New 3) (.ptr (.struct ([⟨"A", true, "1", .bool true⟩] ++
        (⟨"S", true, "1", .other .String "s"⟩ : Field) :: [⟨"B", true, "2", .bool true⟩])))).ret =
        (Unmarshal (New 3) (.ptr (.struct ([⟨"A", true, "1", .bool true⟩] ++
          [⟨"B", true, "2", .bool true⟩])))).ret ∧
      ∃ gpre gpost, gpre.length = [(⟨"A", true, "1", .bool true⟩ : Field)].length ∧
        (Unmarshal (New 3) (.ptr (.struct ([⟨"A", true, "1", .bool true⟩] ++
          [⟨"B", true, "2", .bool true⟩])))).dest = .ptr (.struct (gpre ++ gpost)) ∧
        (Unmarshal (New 3) (.ptr (.struct ([⟨"A", true, "1", .bool true⟩] ++
          (⟨"S", true, "1", .other .String "s"⟩ : Field) ::
            [⟨"B", true, "2", .bool true⟩])))).dest =
          .ptr (.struct (gpre ++ (⟨"S", true, "1", .other .String "s"⟩ : Field) :: gpost)) :=
  removing_an_inert_field_changes_nothing [⟨"A", true, "1", .bool true⟩]
    [⟨"B", true, "2", .bool true⟩] ⟨"S", true, "1", .other .String "s"⟩ (New 3)
    (by decide) (by decide)

/-! ### C18 -/

/-- C18: the doc comments of `IsSet`, `Set` and `Unset` give the range `0 <= i <= 32`,
but at `i = 0` the shift count `i - 1` is negative and each of the three panics, on
every mask; for `i` in `[1, 32]` each of them completes. -/
theorem bit_primitive_panics_at_position_zero (b : BitMask) :
    b.IsSet 0 = .panicked "runtime error: negative shift amount" ∧
      b.Set 0 = .panicked "runtime error: negative shift amount" ∧
      b.Unset 0 = .panicked "runtime error: negative shift amount" ∧
      ∀ i : Int, 1 ≤ i → i ≤ 32 →
        (∃ s, b.IsSet i = .done s) ∧ (∃ c, b.Set i = .done c) ∧ ∃ c, b.Unset i = .done c := by
  refine ⟨?_, ?_, ?_, fun i h1 h2 => ⟨⟨_, IsSet_of_pos b h1 (by omega)⟩, ?_, ?_⟩⟩
  · unfold BitMask.IsSet; rw [shiftOne_zero]
  · unfold BitMask.Set; rw [shiftOne_zero]
  · unfold BitMask.Unset; rw [shiftOne_zero]
  · obtain ⟨c, hc, -⟩ := Set_of_pos b h1 (by omega : i ≤ 64)
    exact ⟨c, hc⟩
  · obtain ⟨c, hc, -⟩ := Unset_of_pos b h1 (by omega : i ≤ 64)
    exact ⟨c, hc⟩

/-! ### C19 -/

/-- C19: `Unmarshal` is not total on well-tagged destinations.  The struct
`{a bool "1"}` with an unexported field has only valid tags, `Marshal` of it returns a
nil error, and `Unmarshal` of mask 1 into a pointer to it does not return nil: the
call panics in `reflect` on the write.  With mask 0, which asks for no write, the
same call returns nil. -/
theorem unmarshal_panics_on_an_unexported_field :
    wellTagged [⟨"a", false, "1", .bool false⟩] ∧
      Marshal (.struct [⟨"a", false, "1", .bool false⟩]) = .done (New 0, none) ∧
      (Unmarshal (New 1) (.ptr (.struct [⟨"a", false, "1", .bool false⟩]))).ret =
        .panicked "reflect: reflect.Value.SetBool using value obtained using unexported field" ∧
      (Unmarshal (New 1) (.ptr (.struct [⟨"a", false, "1", .bool false⟩]))).ret ≠ .done none ∧
      (Unmarshal (New 0) (.ptr (.struct [⟨"a", false, "1", .bool false⟩]))).ret = .done none := by
  refine ⟨by unfold wellTagged; decide, by decide, by decide, by decide, by decide⟩

/-! ### C20 -/

/-- C20, as the claim states it, fails: the struct type `{a bool "1"}` with an
unexported field has only valid tags, and `Unmarshal` of mask 1 into its zero value
panics, so there is no struct to marshal. -/
theorem unmarshal_then_marshal_panics_on_an_unexported_field :
    wellTagged [⟨"a", false, "1", .bool true⟩] ∧
      (Unmarshal (New 1) (.ptr (.struct ([(⟨"a", false, "1", .bool true⟩ : Field)].map
        Field.fresh)))).ret =
        .panicked "reflect: reflect.Value.SetBool using value obtained using unexported field" := by
  refine ⟨by unfold wellTagged; decide, by decide⟩

/-- C20, amended: decode-then-encode.  For every struct type whose non-empty tags are
all valid positions and whose tagged `bool`/`int*`/`uint*` fields are exported, and
every mask `m`, `Unmarshal` of `m` into a zero-valued struct of that type returns
nil, and `Marshal` of that struct returns, with a nil error, `m AND` the OR of
`2^(p-1)` over the positions `p` tagged on `bool`/`int*`/`uint*` fields; it returns `m`
itself when every position in `[1, 64]` set in `m` is such a tagged position. -/
theorem unmarshal_then_marshal_restricts_the_mask (m : BitMask) (fs : List Field)
    (hw : wellTagged fs) (hx : ∀ f ∈ fs, f.participates = true → f.exported = true) :
    ∃ gs mask,
      Unmarshal m (.ptr (.struct (fs.map Field.fresh))) = ⟨.ptr (.struct gs), .done none⟩ ∧
      Marshal (.struct gs) = .done (mask, none) ∧
      mask.bits = m.bits &&& positionsMask fs ∧
      ((∀ p : Int, 1 ≤ p → p ≤ 64 → m.IsSet p = .done true →
          ∃ f ∈ fs, f.participates = true ∧ tagPos f.tag = p) → mask = m) := by
  have hwf : wellTagged (fs.map Field.fresh) := by
    intro g hg
    obtain ⟨f, hf, rfl⟩ := List.mem_map.1 hg
    exact hw f hf
  have hxf : ∀ g ∈ fs.map Field.fresh, g.participates = true →
      m.IsSet (tagPos g.tag) = .done true → g.exported = true := by
    intro g hg hp _
    obtain ⟨f, hf, rfl⟩ := List.mem_map.1 hg
    rw [fresh_participates] at hp
    exact hx f hf hp
  have hwg : wellTagged ((fs.map Field.fresh).map (applyMask m)) := by
    intro g hg
    obtain ⟨g', hg', rfl⟩ := List.mem_map.1 hg
    rw [applyMask_tag]
    exact hwf g' hg'
  obtain ⟨mask, hmask, hbits⟩ := Marshal_wellTagged _ hwg
  have hand : mask.bits = m.bits &&& positionsMask fs := by
    apply Nat.eq_of_testBit_eq
    intro j
    rw [Bool.eq_iff_iff, hbits, Nat.testBit_and, Bool.and_eq_true, testBit_positionsMask]
    constructor
    · rintro ⟨g, hg, hgt, hgtr, hgj⟩
      obtain ⟨g', hg', rfl⟩ := List.mem_map.1 hg
      obtain ⟨f, hf, rfl⟩ := List.mem_map.1 hg'
      rw [applyMask_tag] at hgt hgj
      have htag : (Field.fresh f).tag = f.tag := rfl
      rw [htag] at hgt hgj
      obtain ⟨hp, hs⟩ := (truthy_applyMask_fresh m f).1 hgtr
      have hv := hw f hf hgt
      rw [IsSet_of_pos m hv.2.1 hv.2.2, Run.done.injEq, hgj] at hs
      exact ⟨hs, f, hf, hp, hgj⟩
    · rintro ⟨hmj, f, hf, hp, hj⟩
      have hft : f.tag ≠ "" := by
        have := hp
        simp only [Field.participates, Bool.and_eq_true, decide_eq_true_eq] at this
        exact this.1
      have hv := hw f hf hft
      have hs : m.IsSet (tagPos f.tag) = .done true := by
        rw [IsSet_of_pos m hv.2.1 hv.2.2, hj, hmj]
      refine ⟨applyMask m (Field.fresh f),
        List.mem_map.2 ⟨Field.fresh f, List.mem_map.2 ⟨f, hf, rfl⟩, rfl⟩, ?_, ?_, ?_⟩
      · rw [applyMask_tag]; exact hft
      · exact (truthy_applyMask_fresh m f).2 ⟨hp, hs⟩
      · rw [applyMask_tag]; exact hj
  refine ⟨_, mask, ?_, hmask, hand, fun hall => ?_⟩
  · rw [Unmarshal_ptr_struct, unmarshalFields_wellTagged m _ hwf hxf]
  · apply BitMask.ext_bits
    rw [hand]
    apply Nat.eq_of_testBit_eq
    intro j
    rw [Nat.testBit_and]
    cases hmj : m.bits.testBit j with
    | false => rfl
    | true =>
      have hj : j < 64 := by
        by_contra hge
        rw [testBit_of_word m.isWord (by omega)] at hmj
        cases hmj
      have hpos : m.IsSet ((j : Int) + 1) = .done true := by
        rw [IsSet_of_pos m (by omega) (by omega)]
        have : ((j : Int) + 1 - 1).toNat = j := by omega
        rw [this, hmj]
      obtain ⟨f, hf, hp, hfp⟩ := hall ((j : Int) + 1) (by omega) (by omega) hpos
      have : (positionsMask fs).testBit j = true :=
        (testBit_positionsMask fs j).2 ⟨f, hf, hp, by rw [hfp]; omega⟩
      rw [this]
      rfl

/-- Witness for C20: mask 7 into `{A bool "1"; B uint8 "3"; c string}`, which has no
field at position 2. -/
theorem unmarshal_then_marshal_restricts_the_mask_witness :
    ∃ gs mask,
      Unmarshal (New 7) (.ptr (.struct ([(⟨"A", true, "1", .bool true⟩ : Field),
        ⟨"B", true, "3", .uint .Uint8 9⟩, ⟨"c", false, "", .other .String "x"⟩].map
          Field.fresh))) = ⟨.ptr (.struct gs), .done none⟩ ∧
      Marshal (.struct gs) = .done (mask, none) ∧
      mask.bits = (New 7).bits &&& positionsMask [(⟨"A", true, "1", .bool true⟩ : Field),
        ⟨"B", true, "3", .uint .Uint8 9⟩, ⟨"c", false, "", .other .String "x"⟩] ∧
      ((∀ p : Int, 1 ≤ p → p ≤ 64 → (New 7).IsSet p = .done true →
          ∃ f ∈ [(⟨"A", true, "1", .bool true⟩ : Field),
            ⟨"B", true, "3", .uint .Uint8 9⟩, ⟨"c", false, "", .other .String "x"⟩],
            f.participates = true ∧ tagPos f.tag = p) → mask = New 7) :=
  unmarshal_then_marshal_restricts_the_mask (New 7) _ (by unfold wellTagged; decide)
    (by decide)

end Bitmask
